import Mathlib

/-!
# hddance: seek-probe and pattern/benchmark engine

A shallow embedding of `src/hddance.cpp` and the properties of its position mapping,
block-size handling, random benchmark, result file and head-movement patterns.

Conventions of the embedding.

* `size_t` values are natural numbers, reduced modulo `2 ^ 64` where the code can wrap.
* A finite `double` is the rational number it denotes (the two zeros are one value; NaN and
  the infinities are not represented).  Every floating-point operation is the exact rational
  operation followed by `Env.rnd`, the rounding of the arithmetic in use.  `ieee_round` is
  IEEE-754 binary64 round-to-nearest-even (overflow to infinity is not reached by the
  operations of this program on finite inputs); `fun x => x` is exact arithmetic.
* Everything the program obtains from outside (ioctl results, the cancellation flag, the clock,
  the random generator, libm, the file system) is a field of `Env`.
* C++ exceptions are the `error` results of the monad `M`; the state reached when the exception
  is thrown is kept, so that effects performed before a throw stay visible.
* Loops whose termination depends on run-time values take a `fuel` bound; running out of it is
  reported as `Exc.fuel_exhausted`, which is not a behaviour of the program.
* Console output (progress counter, ruler, averages) is not modelled.
-/

namespace Hddance

/-! ## Constants -/

def SAMPLES : Nat := 2048
def BLOCK : Nat := 512
def KiB : Nat := 2 ^ 10
def MiB : Nat := 2 ^ 20

/-- Modulus of `size_t` arithmetic. -/
def SIZE : Nat := 2 ^ 64

/-! ## Floating point -/

/-- Round to the nearest integer, ties to the even one. -/
def round_half_even (x : ℚ) : ℤ :=
  let f := ⌊x⌋
  if x - f < 1 / 2 then f
  else if 1 / 2 < x - f then f + 1
  else if f % 2 = 0 then f else f + 1

/-- IEEE-754 binary64 rounding to nearest, ties to even, of an exact value: 53 significant bits,
least exponent `-1022` (below it the spacing stays `2 ^ (-1074)`, the subnormal range). -/
def ieee_round (x : ℚ) : ℚ :=
  if x = 0 then 0
  else
    let e : ℤ := max (Int.log 2 |x|) (-1022) - 52
    (round_half_even (x / 2 ^ e) : ℚ) * 2 ^ e

/-- Conversion `size_t(x)` of a double: truncation.  For a value outside the range of `size_t`
the C++ conversion is undefined; here the result is reduced modulo `2 ^ 64`, and 0 for a
negative value.  No statement below depends on that choice. -/
def to_size_t (x : ℚ) : Nat := ⌊x⌋.toNat % SIZE

/-! ## Environment, state, exceptions -/

inductive Exc where
  /-- The class `normal_exit` thrown on cancellation. -/
  | normal_exit
  /-- A `std::runtime_error` with its message. -/
  | runtime_error (what : String)
  /-- Integer division by zero: not a C++ exception, the run does not continue. -/
  | division_by_zero
  /-- The loop bound of the model was reached. -/
  | fuel_exhausted
  deriving DecidableEq

structure Env where
  /-- Rounding applied after every floating-point operation. -/
  rnd : ℚ → ℚ
  /-- The libm function `sin` on doubles. -/
  sin : ℚ → ℚ
  /-- Whether `open(dev, O_RDONLY | O_DIRECT)` succeeds. -/
  dev_opens : String → Bool
  /-- Result of `ioctl(fd, BLKGETSIZE64, ..)`: the raw size, or `none` when it fails. -/
  raw_size : Option Nat
  /-- Result of `ioctl(fd, HDIO_GET_IDENTITY, ..)`: bytes of `hd.model`, or `none` on failure. -/
  identity : Option (List Char)
  /-- Value of `quit.load()` seen by the `k`-th call of `read_position` (counted from 0). -/
  quit : Nat → Bool
  /-- Duration measured around the `read` of the `k`-th call of `read_position`. -/
  elapsed : Nat → ℚ
  /-- Value returned by the `k`-th call of a distribution on `generator`. -/
  random : Nat → ℚ
  /-- Whether a `std::ofstream` on this path opens. -/
  can_open : String → Bool
  /-- `boost::filesystem::exists`. -/
  dir_exists : String → Bool
  /-- Whether `boost::filesystem::create_directory` succeeds. -/
  can_mkdir : String → Bool

structure State where
  name : String
  results_dir : String
  block : Nat
  capacity : Nat
  /-- Number of calls of `read_position` so far. -/
  calls : Nat
  /-- Number of values drawn from `generator` so far. -/
  draws : Nat
  /-- Arguments of the calls of `read_position`, in order. -/
  trace : List ℚ
  /-- Device reads issued, in order: byte offset sought to and length requested. -/
  reads : List (Nat × Nat)
  /-- Files written through `std::ofstream`: path and the records written,
  each record being followed by `std::endl`. -/
  files : List (String × List String)
  /-- Directories created. -/
  dirs : List String

/-- Computations of the program: a result or an exception, and the state reached. -/
def M (α : Type) : Type := State → Except Exc α × State

def M.pure {α : Type} (a : α) : M α := fun st => (.ok a, st)

def M.bind {α β : Type} (m : M α) (f : α → M β) : M β := fun st =>
  match m st with
  | (.ok a, st1) => f a st1
  | (.error e, st1) => (.error e, st1)

instance : Monad M where
  pure := M.pure
  bind := M.bind

def raise {α : Type} (e : Exc) : M α := fun st => (.error e, st)

/-! ## Device -/

def get_capacity (env : Env) : M Unit := fun st =>
  match env.raw_size with
  | some r => (.ok (), { st with capacity := r })
  | none => (.error (.runtime_error "can't get disk capacity"), st)

def set_block_size (env : Env) (block : Nat) : M Unit := fun st =>
  if block > MiB then
    (.error (.runtime_error "block can't be more than 1 MiB"), st)
  else
    let st1 := { st with block := block }
    match get_capacity env st1 with
    | (.error e, st2) => (.error e, st2)
    | (.ok _, st2) => (.ok (), { st2 with capacity := (st2.capacity + SIZE - st2.block) % SIZE })

/-- The clamping at the head of `read_position`. -/
def clamp (position : ℚ) : ℚ :=
  if position < 0 then 0 else if position > 1 then 1 else position

/-- The byte offset `size_t(capacity * position) / block * block` of `read_position`. -/
def seek_offset (env : Env) (capacity block : Nat) (position : ℚ) : Nat :=
  (to_size_t (env.rnd (env.rnd capacity * position)) / block * block) % SIZE

def read_position (env : Env) (position : ℚ) : M ℚ := fun st =>
  let k := st.calls
  let st1 := { st with calls := k + 1, trace := st.trace ++ [position] }
  if env.quit k then (.error .normal_exit, st1)
  else
    let position := clamp position
    if st1.block = 0 then (.error .division_by_zero, st1)
    else
      let by_ := seek_offset env st1.capacity st1.block position
      (.ok (env.elapsed k), { st1 with reads := st1.reads ++ [(by_, st1.block)] })

/-- The characters `std::isspace` accepts in the classic locale. -/
def is_space (c : Char) : Bool := c.toNat = 32 || (9 ≤ c.toNat && c.toNat ≤ 13)

/-- The lambda `wstrim` of `get_hdd_name`: drop NUL bytes, then trim white space. -/
def wstrim (str : List Char) : String :=
  let result := str.filter (fun c => c.toNat ≠ 0)
  String.mk ((result.dropWhile is_space).reverse.dropWhile is_space).reverse

def fallback_name (capacity : Nat) : String := toString (capacity / MiB) ++ "_MiB_drive"

def get_hdd_name (env : Env) : M String := fun st =>
  match get_capacity env st with
  | (.error e, st1) => (.error e, st1)
  | (.ok _, st1) =>
    match env.identity with
    | some model =>
      let hdmodel := wstrim model
      if hdmodel.isEmpty then (.ok (fallback_name st1.capacity), st1) else (.ok hdmodel, st1)
    | none => (.ok (fallback_name st1.capacity), st1)

/-- The constructor `hddance(dev, res)`. -/
def hddance (env : Env) (dev res : String) : M Unit := fun st =>
  let st1 := { st with name := "", results_dir := res, block := 0, capacity := 0 }
  if env.dev_opens dev then
    match get_hdd_name env st1 with
    | (.error e, st2) => (.error e, st2)
    | (.ok n, st2) => (.ok (), { st2 with name := n })
  else (.error (.runtime_error "can't open block device"), st1)

/-! ## Output of numbers -/

/-- A digit string without its trailing zeros. -/
def strip_zeros (ds : List Char) : List Char := (ds.reverse.dropWhile (fun c => c == '0')).reverse

/-- Exponent field of the scientific style: sign and at least two digits. -/
def exponent_field (X : ℤ) : String :=
  (if X < 0 then "-" else "+") ++ (if X.natAbs < 10 then "0" else "") ++ toString X.natAbs

/-- Layout of the six significant digits `m` (`10 ^ 5 ≤ m < 10 ^ 6`) with decimal exponent `X`
in the style of `%g`: scientific when `X < -4` or `X ≥ 6`, fixed otherwise, trailing zeros and a
trailing decimal point removed. -/
def layout_g (m : Nat) (X : ℤ) : String :=
  let ds := Nat.toDigits 10 m
  if X < -4 ∨ 6 ≤ X then
    let frac := strip_zeros (ds.drop 1)
    String.mk (ds.take 1 ++ (if frac.isEmpty then [] else '.' :: frac)) ++ "e" ++ exponent_field X
  else if 0 ≤ X then
    let frac := strip_zeros (ds.drop (X.toNat + 1))
    String.mk (ds.take (X.toNat + 1) ++ (if frac.isEmpty then [] else '.' :: frac))
  else
    String.mk ('0' :: '.' :: (List.replicate ((-X).toNat - 1) '0' ++ strip_zeros ds))

/-- The text `operator<<` writes for a double on a stream in its default state
(precision 6, no float field: the conversion `%g`), the value rounded to six significant
digits, ties to even. -/
def format_double (x : ℚ) : String :=
  if x = 0 then "0"
  else
    let a := |x|
    let X0 := Int.log 10 a
    let m0 := (round_half_even (a / 10 ^ (X0 - 5))).toNat
    let m := if m0 = 10 ^ 6 then 10 ^ 5 else m0
    let X := if m0 = 10 ^ 6 then X0 + 1 else X0
    (if x < 0 then "-" else "") ++ layout_g m X

/-! ## Random read benchmark -/

/-- The constant `M_E` of `math.h`. -/
def M_E (env : Env) : ℚ := env.rnd (27182818284590452354 / 10 ^ 19)

/-- The constant `M_PI` of `math.h`. -/
def M_PI (env : Env) : ℚ := env.rnd (314159265358979323846 / 10 ^ 20)

/-- One call `distr(generator)`. -/
def draw (env : Env) : M ℚ := fun st =>
  (.ok (env.random st.draws), { st with draws := st.draws + 1 })

/-- The loop `while (precomp.size() < SAMPLES)` of `perform_random_read_benchmark`. -/
def precompute (env : Env) : Nat → List ℚ → M (List ℚ)
  | 0, precomp => if precomp.length < SAMPLES then raise .fuel_exhausted else pure precomp
  | fuel + 1, precomp =>
    if precomp.length < SAMPLES then do
      let d ← draw env
      let pos := env.rnd (d / M_E env)
      if pos ≤ 1 then precompute env fuel (precomp ++ [pos])
      else precompute env fuel precomp
    else pure precomp

/-- The loop `for (const auto &x : precomp)` that fills `results`. -/
def timed_reads (env : Env) : List ℚ → List (ℚ × ℚ) → M (List (ℚ × ℚ))
  | [], results => pure results
  | x :: xs, results => do
    let t ← read_position env x
    timed_reads env xs (results ++ [(x, t)])

/-- Opening a `std::ofstream`: the file is created or truncated. -/
def ofstream_open (path : String) : M Unit := fun st =>
  let files := (path, []) :: st.files.filter (fun f => f.1 ≠ path)
  (.ok (), { st with files := files })

/-- One statement `results_file << .. << std::endl`. -/
def ofstream_write (path record : String) : M Unit := fun st =>
  let files := st.files.map (fun f => if f.1 = path then (f.1, f.2 ++ [record]) else f)
  (.ok (), { st with files := files })

/-- The text `x.first << ":" << x.second` of one measurement. -/
def measurement_line (x : ℚ × ℚ) : String := format_double x.1 ++ ":" ++ format_double x.2

/-- The loop `for (auto &x : results)` that validates and writes the measurements. -/
def write_measurements (path : String) : List (ℚ × ℚ) → M Unit
  | [] => pure ()
  | x :: xs =>
    if x.2 ≤ 0 then
      raise (.runtime_error "invalid block access measurement, repeat the test")
    else do
      ofstream_write path (measurement_line x)
      write_measurements path xs

def results_path (st : State) : String :=
  st.results_dir ++ st.name ++ "_" ++ toString st.block ++ ".txt"

/-- The part of `perform_random_read_benchmark` that writes the result file. -/
def write_results (env : Env) (results : List (ℚ × ℚ)) : M Unit := fun st =>
  let path := results_path st
  if env.can_open path then
    (do
      ofstream_open path
      ofstream_write path st.name
      ofstream_write path (toString st.block)
      write_measurements path results) st
  else (.error (.runtime_error "can't open results file"), st)

def perform_random_read_benchmark (env : Env) (fuel : Nat) (block_size : Nat) : M Unit := do
  set_block_size env block_size
  let precomp ← precompute env fuel []
  let results ← timed_reads env precomp []
  write_results env results

/-! ## Head movement patterns -/

/-- The local variables of `move_heads`; `i_` and `j` are the counters of the inner loops of
the last but one phase, `repeat_` its `repeat`. -/
structure Vars where
  f : ℚ
  s : ℚ
  l : ℚ
  h : ℚ
  amp : ℚ
  x : ℚ
  i : ℤ
  heads : ℤ
  repeat_ : ℤ
  i_ : ℤ
  j : ℤ
  ts : List ℚ

/-- A loop `for (..; cond; incr) body` entered with its variables initialised. -/
def for_loop {σ : Type} (cond : σ → Bool) (body : σ → M σ) (incr : σ → σ) : Nat → σ → M σ
  | 0, v => if cond v then raise .fuel_exhausted else pure v
  | fuel + 1, v =>
    if cond v then do
      let v1 ← body v
      for_loop cond body incr fuel (incr v1)
    else pure v

/-- The call `read_position(f + cen_distr(generator))`. -/
def read_jittered (env : Env) (f : ℚ) : M ℚ := do
  let c ← draw env
  read_position env (env.rnd (f + c))

/-- The statement `read_position(f + cen_distr(generator));` as a loop body. -/
def read_at_f (env : Env) (v : Vars) : M Vars := do
  let _ ← read_jittered env v.f
  pure v

/-- One pass of the accelerating zigzag: the body of the loop over `i`. -/
def zigzag_pass (env : Env) (fuel : Nat) (v : Vars) : M Vars := do
  let v ← for_loop (fun v => decide (v.f < 1)) (read_at_f env)
    (fun v => { v with f := env.rnd (v.f + v.s) }) fuel { v with f := 0 }
  let v ← for_loop (fun v => decide (v.f > 0)) (read_at_f env)
    (fun v => { v with f := env.rnd (v.f - v.s) }) fuel { v with f := env.rnd (v.f - v.s) }
  pure { v with s := env.rnd (v.s + env.rnd (75 / 10000)) }

/-- Phase "accelerating zigzag", with the statement `f += s;` that follows it. -/
def accelerating_zigzag (env : Env) (fuel : Nat) (v : Vars) : M Vars := do
  let v ← for_loop (fun v => decide (v.i < 5)) (zigzag_pass env fuel)
    (fun v => { v with i := v.i + 1 }) fuel { v with s := env.rnd (10 / 1000), i := 0 }
  pure { v with f := env.rnd (v.f + v.s) }

/-- Phase "tightening zigzag". -/
def tightening_zigzag (env : Env) (fuel : Nat) (v : Vars) : M Vars :=
  for_loop (fun v => decide (v.l < v.h))
    (fun v => do
      let v ← for_loop (fun v => decide (v.f < v.h)) (read_at_f env)
        (fun v => { v with f := env.rnd (v.f + v.s) }) fuel v
      let v ← for_loop (fun v => decide (v.f > v.l)) (read_at_f env)
        (fun v => { v with f := env.rnd (v.f - v.s) }) fuel v
      pure { v with h := env.rnd (v.h - env.rnd (5 / 100)), l := env.rnd (v.l + env.rnd (5 / 100)) })
    (fun v => v) fuel { v with h := env.rnd (90 / 100), l := env.rnd (10 / 100) }

/-- The value `(sin(x) * amp) + 0.5`. -/
def sine_position (env : Env) (v : Vars) : ℚ :=
  env.rnd (env.rnd (env.sin v.x * v.amp) + env.rnd (1 / 2))

/-- The loop over `x` of the two sinusoid phases. -/
def sinusoid_cycle (env : Env) (fuel : Nat) (v : Vars) : M Vars :=
  for_loop (fun v => decide (v.x < env.rnd (2 * M_PI env)))
    (fun v => do
      let _ ← read_jittered env (sine_position env v)
      pure v)
    (fun v => { v with x := env.rnd (v.x + env.rnd (M_PI env / 32)) }) fuel { v with x := 0 }

/-- The loop over `x` of the two double-sinusoid phases. -/
def double_sinusoid_cycle (env : Env) (fuel : Nat) (v : Vars) : M Vars :=
  for_loop (fun v => decide (v.x < env.rnd (2 * M_PI env)))
    (fun v => do
      let v := { v with f := sine_position env v }
      let _ ← read_jittered env v.f
      let c ← draw env
      let _ ← read_position env (env.rnd (env.rnd (1 - v.f) - c))
      pure v)
    (fun v => { v with x := env.rnd (v.x + env.rnd (M_PI env / 16)) }) fuel { v with x := 0 }

/-- A loop `for (; amp <= 0.50; amp += 0.05)` entered with `amp = 0.05`. -/
def widening (env : Env) (cycle : Vars → M Vars) (fuel : Nat) (v : Vars) : M Vars :=
  for_loop (fun v => decide (v.amp ≤ env.rnd (50 / 100))) cycle
    (fun v => { v with amp := env.rnd (v.amp + env.rnd (5 / 100)) }) fuel
    { v with amp := env.rnd (5 / 100) }

/-- A loop `for (amp = 0.50; amp > 0.0; amp -= 0.05)`. -/
def narrowing (env : Env) (cycle : Vars → M Vars) (fuel : Nat) (v : Vars) : M Vars :=
  for_loop (fun v => decide (v.amp > 0)) cycle
    (fun v => { v with amp := env.rnd (v.amp - env.rnd (5 / 100)) }) fuel
    { v with amp := env.rnd (50 / 100) }

/-- The statement `read_position((double)j / (heads + 1) + cen_distr(generator));`. -/
def read_at_j (env : Env) (v : Vars) : M Vars := do
  let _ ← read_jittered env (env.rnd ((v.j : ℚ) / ((v.heads + 1 : ℤ) : ℚ)))
  pure v

/-- The loop `for (int j = 1; j <= heads; ++j)`: one sweep. -/
def sweep (env : Env) (fuel : Nat) (v : Vars) : M Vars :=
  for_loop (fun v => decide (v.j ≤ v.heads)) (read_at_j env)
    (fun v => { v with j := v.j + 1 }) fuel { v with j := 1 }

/-- The body shared by the two loops over `heads`: `repeat = 160 / heads` sweeps. -/
def heads_sweeps (env : Env) (fuel : Nat) (v : Vars) : M Vars :=
  for_loop (fun v => decide (v.i_ < v.repeat_)) (sweep env fuel)
    (fun v => { v with i_ := v.i_ + 1 }) fuel
    { v with repeat_ := Int.tdiv 160 v.heads, i_ := 0 }

/-- Phase "buncha heads": the loop `for (heads = 2; heads < 7; ++heads)` and then the loop
`for (; heads > 0; heads -= 2)`, which starts from the value the first loop left. -/
def buncha_heads (env : Env) (fuel : Nat) (v : Vars) : M Vars := do
  let v ← for_loop (fun v => decide (v.heads < 7)) (heads_sweeps env fuel)
    (fun v => { v with heads := v.heads + 1 }) fuel { v with heads := 2 }
  for_loop (fun v => decide (v.heads > 0)) (heads_sweeps env fuel)
    (fun v => { v with heads := v.heads - 2 }) fuel v

/-- Phase "max": 200 full swings, the durations collected in `ts`. -/
def full_swing (env : Env) (fuel : Nat) (v : Vars) : M Vars :=
  for_loop (fun v => decide (v.i < 200))
    (fun v => do
      let p ← draw env
      let t1 ← read_position env (env.rnd (0 + p))
      let q ← draw env
      let t2 ← read_position env (env.rnd (1 - q))
      pure { v with ts := v.ts ++ [t1, t2] })
    (fun v => { v with i := v.i + 1 }) fuel { v with i := 0, ts := [] }

/-- Values of the local variables before their first assignment (none is read). -/
def Vars.start : Vars :=
  { f := 0, s := 0, l := 0, h := 0, amp := 0, x := 0, i := 0, heads := 0, repeat_ := 0,
    i_ := 0, j := 0, ts := [] }

def move_heads (env : Env) (fuel : Nat) : M Unit := do
  set_block_size env BLOCK
  let v ← accelerating_zigzag env fuel Vars.start
  let v ← tightening_zigzag env fuel v
  let v ← widening env (sinusoid_cycle env fuel) fuel v
  let v ← narrowing env (sinusoid_cycle env fuel) fuel v
  let v ← widening env (double_sinusoid_cycle env fuel) fuel v
  let v ← narrowing env (double_sinusoid_cycle env fuel) fuel v
  let v ← buncha_heads env fuel v
  let _ ← full_swing env fuel v
  pure ()

/-! ## The program -/

/-- The command line after parsing by `boost::program_options`. -/
structure Options where
  device : String
  version : Bool
  help : Bool
  moveheads : Bool
  printposition : Bool
  blocksize : Option Nat
  output : Option String

/-- Normalisation and creation of the output directory.  (`output.back()` on an empty string
is undefined in C++; here an empty `output` becomes `/`.) -/
def prepare_output (env : Env) (o : Options) : M String := fun st =>
  match o.output with
  | none => (.ok "", st)
  | some output =>
    let output := if output.back ≠ '/' then output.push '/' else output
    if env.dir_exists output then (.ok output, st)
    else if env.can_mkdir output then (.ok output, { st with dirs := st.dirs ++ [output] })
    else (.error (.runtime_error "create_directory"), st)

/-- The `try` block of `main`. -/
def main_try (env : Env) (fuel : Nat) (o : Options) : M Unit :=
  if o.version then pure ()
  else if o.help then pure ()
  else do
    let output ← prepare_output env o
    hddance env o.device output
    if o.moveheads then move_heads env fuel
    else
      match o.blocksize with
      | some block => perform_random_read_benchmark env fuel ((block * KiB) % SIZE)
      | none => do
        perform_random_read_benchmark env fuel BLOCK
        perform_random_read_benchmark env fuel (4 * KiB)
        perform_random_read_benchmark env fuel (64 * KiB)

/-- How the process ends. -/
inductive Outcome where
  /-- The function `main` returns this status. -/
  | exit (status : Nat)
  /-- The run does not reach a `return` of `main`. -/
  | aborted (e : Exc)
  deriving DecidableEq

/-- The state of a fresh process on a file system holding `files`. -/
def State.start (files : List (String × List String)) : State :=
  { name := "", results_dir := "", block := 0, capacity := 0, calls := 0, draws := 0,
    trace := [], reads := [], files := files, dirs := [] }

/-- The function `main` with its two `catch` clauses. -/
def main (env : Env) (fuel : Nat) (o : Options) (files : List (String × List String)) :
    Outcome × State :=
  match main_try env fuel o (State.start files) with
  | (.ok _, st) => (.exit 0, st)
  | (.error .normal_exit, st) => (.exit 0, st)
  | (.error (.runtime_error _), st) => (.exit 1, st)
  | (.error e, st) => (.aborted e, st)

/-! ## Environments used to run the definitions -/

/-- Exact arithmetic, a device of `r` bytes named `TESTDRIVE`, no cancellation, every read
taking one millisecond, every random draw 0, a file system that accepts everything. -/
def Env.ideal (r : Nat) : Env where
  rnd := fun x => x
  sin := fun _ => 0
  dev_opens := fun _ => true
  raw_size := some r
  identity := some "TESTDRIVE".toList
  quit := fun _ => false
  elapsed := fun _ => 1 / 1000
  random := fun _ => 0
  can_open := fun _ => true
  dir_exists := fun _ => true
  can_mkdir := fun _ => true

/-- The environment `Env.ideal r` with IEEE-754 binary64 arithmetic. -/
def Env.ieee (r : Nat) : Env := { Env.ideal r with rnd := ieee_round }

/-! ## Descriptions used in the statements -/

/-- The positions `d / M_E` not above 1 among the next `n` draws, from draw number `d0` on, in
draw order. -/
def accepted (env : Env) (d0 n : Nat) : List ℚ :=
  ((List.range n).map (fun i : Nat => env.rnd (env.random (d0 + i) / M_E env))).filter
    (fun pos => decide (pos ≤ 1))

/-- The measurements recorded for the positions `xs` when the first of them is read by call
number `k` of `read_position`. -/
def measure_from (env : Env) : Nat → List ℚ → List (ℚ × ℚ)
  | _, [] => []
  | k, x :: xs => (x, env.elapsed k) :: measure_from env (k + 1) xs

/-- The reads issued for the positions `xs` with the given capacity and block size. -/
def reads_of (env : Env) (capacity block : Nat) (xs : List ℚ) : List (Nat × Nat) :=
  xs.map (fun x => (seek_offset env capacity block (clamp x), block))

/-- The files after `recs` is appended to the file `path`. -/
def append_records (path : String) (recs : List String)
    (files : List (String × List String)) : List (String × List String) :=
  files.map (fun f => if f.1 = path then (f.1, f.2 ++ recs) else f)

/-- The files after the file `path` is created or truncated. -/
def truncated (path : String) (files : List (String × List String)) :
    List (String × List String) :=
  (path, []) :: files.filter (fun f => f.1 ≠ path)

/-- A device object named `TESTDRIVE` with block size 512 and no output directory. -/
def State.testdrive : State :=
  { State.start [] with name := "TESTDRIVE", block := 512 }

/-- The environment `Env.ideal r` with a clock that measures no time for any read. -/
def Env.stalled (r : Nat) : Env := { Env.ideal r with elapsed := fun _ => 0 }

/-- The arguments of `read_position` when the values `ps` are read with jitter, the first
jitter being draw number `d`. -/
def jittered (env : Env) : Nat → List ℚ → List ℚ
  | _, [] => []
  | d, p :: ps => env.rnd (p + env.random d) :: jittered env (d + 1) ps

/-- The state after the values `ps` have been read with jitter, no read being cancelled. -/
def after_reads (env : Env) (ps : List ℚ) (st : State) : State :=
  { st with
    calls := st.calls + ps.length
    draws := st.draws + ps.length
    trace := st.trace ++ jittered env st.draws ps
    reads := st.reads ++ reads_of env st.capacity st.block (jittered env st.draws ps) }

/-- The positions `j / (h + 1)`, `j = 1 .. h`, of one sweep with `h` heads, as computed in
double arithmetic and before the jitter is added. -/
def sweep_positions (env : Env) (h : Nat) : List ℚ :=
  (List.range h).map (fun j : Nat => env.rnd (((j + 1 : Nat) : ℚ) / ((h + 1 : Nat) : ℚ)))

/-- The positions of `160 / h` sweeps for each head count `h` of the list `hs`, in order. -/
def bunching_positions (env : Env) (hs : List Nat) : List ℚ :=
  hs.flatMap (fun h => (List.replicate (160 / h) (sweep_positions env h)).flatten)

/-- One ascending sweep from 0 in steps of `s` over all positions below 1 (the multiples
`k * s` with `k < ⌈1 / s⌉`), followed by one descending sweep in steps of `s` from the last of
them down to above 0. -/
def zigzag_sweeps (s : ℚ) : List ℚ :=
  (List.range ⌈1 / s⌉.toNat).map (fun k : Nat => (k : ℚ) * s) ++
    (List.range (⌈1 / s⌉.toNat - 1)).map
      (fun k : Nat => ((⌈1 / s⌉.toNat - 1 - k : Nat) : ℚ) * s)

/-- Five passes with the step sizes 0.010, 0.0175, 0.0250, 0.0325, 0.0400. -/
def accelerating_zigzag_positions : List ℚ :=
  [10 / 1000, 175 / 10000, 250 / 10000, 325 / 10000, 400 / 10000].flatMap zigzag_sweeps

/-- The state after a call `read_position(f + cen_distr(generator))` that finds the
cancellation flag set: the jitter was drawn, nothing was read. -/
def after_cancel (env : Env) (f : ℚ) (st : State) : State :=
  { st with
    calls := st.calls + 1
    draws := st.draws + 1
    trace := st.trace ++ [env.rnd (f + env.random st.draws)] }

/-- The environment `Env.ideal r` with the cancellation flag set from the start. -/
def Env.interrupted (r : Nat) : Env := { Env.ideal r with quit := fun _ => true }

/-- The command line `hddance /dev/sda`. -/
def Options.plain : Options :=
  { device := "/dev/sda", version := false, help := false, moveheads := false,
    printposition := false, blocksize := none, output := none }

/-! ## Basic facts about the monad -/

@[simp] theorem pure_run {α : Type} (a : α) (st : State) :
    (pure a : M α) st = (.ok a, st) := rfl

@[simp] theorem raise_run {α : Type} (e : Exc) (st : State) :
    (raise e : M α) st = (.error e, st) := rfl

theorem bind_run {α β : Type} (m : M α) (f : α → M β) (st : State) :
    (m >>= f) st = match m st with
      | (.ok a, st1) => f a st1
      | (.error e, st1) => (.error e, st1) := rfl

theorem bind_run_ok {α β : Type} (m : M α) (f : α → M β) (st st1 : State) (a : α)
    (h : m st = (.ok a, st1)) : (m >>= f) st = f a st1 := by
  rw [bind_run, h]

theorem bind_run_error {α β : Type} (m : M α) (f : α → M β) (st st1 : State) (e : Exc)
    (h : m st = (.error e, st1)) : (m >>= f) st = (.error e, st1) := by
  rw [bind_run, h]

/-! ## Position mapping -/

theorem to_size_t_lt (x : ℚ) : to_size_t x < SIZE :=
  Nat.mod_lt _ (by norm_num [SIZE])

theorem seek_offset_eq (env : Env) (c b : Nat) (p : ℚ) :
    seek_offset env c b p = to_size_t (env.rnd (env.rnd c * p)) / b * b := by
  unfold seek_offset
  apply Nat.mod_eq_of_lt
  exact lt_of_le_of_lt (Nat.div_mul_le_self _ _) (to_size_t_lt _)

theorem clamp_of_nonpos {p : ℚ} (h : p ≤ 0) : clamp p = 0 := by
  unfold clamp
  rcases lt_or_eq_of_le h with h1 | h1
  · simp [h1]
  · subst h1; simp

theorem clamp_of_one_le {p : ℚ} (h : 1 ≤ p) : clamp p = 1 := by
  unfold clamp
  have h0 : ¬ p < 0 := by linarith
  rcases lt_or_eq_of_le h with h1 | h1
  · simp [h0, h1]
  · subst h1; simp

/-- What a call of `read_position` does when the flag is clear and the block size is not 0. -/
theorem read_position_ok (env : Env) (p : ℚ) (st : State)
    (hq : env.quit st.calls = false) (hb : st.block ≠ 0) :
    read_position env p st =
      (.ok (env.elapsed st.calls),
        { st with
          calls := st.calls + 1
          trace := st.trace ++ [p]
          reads := st.reads ++ [(seek_offset env st.capacity st.block (clamp p), st.block)] }) := by
  simp [read_position, hq, hb]

/-- What a call of `read_position` does when the flag is set. -/
theorem read_position_cancelled (env : Env) (p : ℚ) (st : State)
    (hq : env.quit st.calls = true) :
    read_position env p st =
      (.error .normal_exit, { st with calls := st.calls + 1, trace := st.trace ++ [p] }) := by
  simp [read_position, hq]

/-! ## Alignment and clamping of the offset -/

/-- C1: for every position `p`, capacity `c` and block size `b` with `0 < b ≤ 1 MiB`, the byte
offset `size_t(c * clamp(p)) / b * b` is an exact multiple of `b`, and it is the offset of the
only read a call of `read_position` adds. -/
theorem read_offset_aligned (env : Env) (p : ℚ) (c b : Nat) (hb : 0 < b) (_hb1 : b ≤ MiB) :
    b ∣ seek_offset env c b (clamp p) ∧
    ∀ st : State, st.capacity = c → st.block = b →
      ∀ r ∈ (read_position env p st).2.reads,
        r ∈ st.reads ∨ r = (seek_offset env c b (clamp p), b) := by
  refine ⟨?_, ?_⟩
  · rw [seek_offset_eq]
    exact Dvd.intro_left _ rfl
  · intro st hc hblk r hr
    have hb0 : st.block ≠ 0 := by omega
    cases hq : env.quit st.calls with
    | true =>
      rw [read_position_cancelled env p st hq] at hr
      exact Or.inl hr
    | false =>
      rw [read_position_ok env p st hq hb0] at hr
      simp only [List.mem_append, List.mem_singleton] at hr
      rcases hr with hr | hr
      · exact Or.inl hr
      · right
        rw [hr, hc, hblk]

theorem read_offset_aligned_witness :
    (0 : Nat) < 512 ∧ 512 ≤ MiB ∧ 512 ∣ seek_offset (Env.ieee 0) 1000000 512 (clamp (1 / 3)) :=
  ⟨by decide, by norm_num [MiB],
    (read_offset_aligned (Env.ieee 0) (1 / 3) 1000000 512 (by decide) (by norm_num [MiB])).1⟩

/-- C2: for every capacity `c` and block size `b > 0`, the offset for a position `p ≤ 0` is the
offset for position 0 and the offset for a position `p ≥ 1` is the offset for position 1; no
position is rejected: with the flag clear, `read_position` returns for every `p`, after one read
at the offset of the clamped position. -/
theorem read_offset_clamped (env : Env) (c b : Nat) (hb : 0 < b) (p : ℚ) :
    (p ≤ 0 → seek_offset env c b (clamp p) = seek_offset env c b (clamp 0)) ∧
    (1 ≤ p → seek_offset env c b (clamp p) = seek_offset env c b (clamp 1)) ∧
    ∀ st : State, st.capacity = c → st.block = b → env.quit st.calls = false →
      (read_position env p st).1 = .ok (env.elapsed st.calls) ∧
      (read_position env p st).2.reads = st.reads ++ [(seek_offset env c b (clamp p), b)] := by
  refine ⟨?_, ?_, ?_⟩
  · intro h
    rw [clamp_of_nonpos h, clamp_of_nonpos (le_refl 0)]
  · intro h
    rw [clamp_of_one_le h, clamp_of_one_le (le_refl 1)]
  · intro st hc hblk hq
    have hb0 : st.block ≠ 0 := by omega
    rw [read_position_ok env p st hq hb0, hc, hblk]
    exact ⟨rfl, rfl⟩

theorem read_offset_clamped_witness :
    (0 : Nat) < 512 ∧ (-3 : ℚ) ≤ 0 ∧ (1 : ℚ) ≤ 5 / 2 ∧
    State.testdrive.capacity = 0 ∧ State.testdrive.block = 512 ∧
    (Env.ieee 0).quit State.testdrive.calls = false ∧
    seek_offset (Env.ieee 0) 0 512 (clamp (-3)) = seek_offset (Env.ieee 0) 0 512 (clamp 0) ∧
    seek_offset (Env.ieee 0) 0 512 (clamp (5 / 2)) = seek_offset (Env.ieee 0) 0 512 (clamp 1) ∧
    (read_position (Env.ieee 0) (-3) State.testdrive).1 =
      .ok ((Env.ieee 0).elapsed State.testdrive.calls) :=
  ⟨by decide, by norm_num, by norm_num, rfl, rfl, rfl,
    (read_offset_clamped (Env.ieee 0) 0 512 (by decide) (-3)).1 (by norm_num),
    (read_offset_clamped (Env.ieee 0) 0 512 (by decide) (5 / 2)).2.1 (by norm_num),
    ((read_offset_clamped (Env.ieee 0) 0 512 (by decide) (-3)).2.2 State.testdrive rfl rfl
      rfl).1⟩

/-! ## Block size -/

theorem set_block_size_ok (env : Env) (n r : Nat) (st : State) (hn : n ≤ MiB)
    (hr : env.raw_size = some r) :
    set_block_size env n st =
      (.ok (), { st with block := n, capacity := (r + SIZE - n) % SIZE }) := by
  have h : ¬ n > MiB := by omega
  simp [set_block_size, get_capacity, h, hr]

/-- C4: for every `n > 1 MiB` and every prior state, `set_block_size(n)` fails with the
invalid-block-size error and leaves the state, so the stored capacity and block size, as it was;
for every `n ≤ 1 MiB` it does not fail with that error. -/
theorem set_block_size_bound (env : Env) (n : Nat) (st : State) :
    (MiB < n → set_block_size env n st =
      (.error (.runtime_error "block can't be more than 1 MiB"), st)) ∧
    (n ≤ MiB → (set_block_size env n st).1 ≠
      .error (.runtime_error "block can't be more than 1 MiB")) := by
  refine ⟨?_, ?_⟩
  · intro h
    simp [set_block_size, h]
  · intro h
    have h1 : ¬ n > MiB := by omega
    cases hr : env.raw_size with
    | some r =>
      rw [set_block_size_ok env n r st h hr]
      simp
    | none =>
      simp [set_block_size, get_capacity, h1, hr]

theorem set_block_size_bound_witness :
    MiB < 1048577 ∧ 512 ≤ MiB ∧
    set_block_size (Env.ideal 4096) 1048577 (State.start []) =
      (.error (.runtime_error "block can't be more than 1 MiB"), State.start []) ∧
    (set_block_size (Env.ideal 4096) 512 (State.start [])).1 ≠
      .error (.runtime_error "block can't be more than 1 MiB") :=
  ⟨by norm_num [MiB], by norm_num [MiB],
    (set_block_size_bound (Env.ideal 4096) 1048577 (State.start [])).1 (by norm_num [MiB]),
    (set_block_size_bound (Env.ideal 4096) 512 (State.start [])).2 (by norm_num [MiB])⟩

/-! ## The random positions -/

theorem accepted_zero (env : Env) (d0 : Nat) : accepted env d0 0 = [] := rfl

theorem accepted_succ (env : Env) (d0 n : Nat) :
    accepted env d0 (n + 1) =
      (if env.rnd (env.random d0 / M_E env) ≤ 1 then [env.rnd (env.random d0 / M_E env)] else [])
        ++ accepted env (d0 + 1) n := by
  unfold accepted
  rw [List.range_succ_eq_map, List.map_cons, List.map_map, List.filter_cons]
  have hfun : ((fun i => env.rnd (env.random (d0 + i) / M_E env)) ∘ Nat.succ)
      = (fun i => env.rnd (env.random (d0 + 1 + i) / M_E env)) := by
    funext i
    simp only [Function.comp, Nat.succ_eq_add_one]
    congr 3
    omega
  rw [hfun]
  by_cases h : env.rnd (env.random d0 / M_E env) ≤ 1
  · simp [h]
  · simp [h]

theorem accepted_le_one (env : Env) (d0 n : Nat) : ∀ x ∈ accepted env d0 n, x ≤ 1 := by
  intro x hx
  unfold accepted at hx
  simpa using (List.mem_filter.mp hx).2

theorem accepted_nonneg (env : Env) (d0 n : Nat)
    (hrnd : ∀ x : ℚ, 0 ≤ x → 0 ≤ env.rnd x) (hd : ∀ i, 0 ≤ env.random (d0 + i)) :
    ∀ x ∈ accepted env d0 n, 0 ≤ x := by
  intro x hx
  unfold accepted at hx
  obtain ⟨i, _, rfl⟩ := List.mem_map.mp (List.mem_filter.mp hx).1
  apply hrnd
  apply div_nonneg (hd i)
  unfold M_E
  apply hrnd
  positivity

/-- The loop that draws the positions: once the next `n` draws hold enough accepted values to
fill `precomp`, the loop returns with `precomp` filled by the first of them, having changed
nothing but the number of draws made. -/
theorem precompute_run (env : Env) (n : Nat) :
    ∀ (fuel : Nat) (precomp : List ℚ) (st : State), n ≤ fuel → precomp.length ≤ SAMPLES →
      SAMPLES ≤ precomp.length + (accepted env st.draws n).length →
      ∃ m, m ≤ n ∧ precompute env fuel precomp st =
        (.ok ((precomp ++ accepted env st.draws n).take SAMPLES),
          { st with draws := st.draws + m }) := by
  induction n with
  | zero =>
    intro fuel precomp st _ hle hge
    rw [accepted_zero] at hge ⊢
    have hlen : precomp.length = SAMPLES := by simpa using le_antisymm hle (by simpa using hge)
    refine ⟨0, le_refl _, ?_⟩
    have hnot : ¬ precomp.length < SAMPLES := by omega
    have htake : List.take SAMPLES (precomp ++ []) = precomp := by
      rw [List.append_nil, ← hlen, List.take_length]
    rw [htake]
    cases fuel with
    | zero => simp [precompute, hnot]
    | succ fuel => simp [precompute, hnot]
  | succ n ih =>
    intro fuel precomp st hfuel hle hge
    by_cases hfull : precomp.length < SAMPLES
    · obtain ⟨fuel1, rfl⟩ : ∃ fuel1, fuel = fuel1 + 1 := ⟨fuel - 1, by omega⟩
      have hfuel1 : n ≤ fuel1 := by omega
      rw [accepted_succ] at hge ⊢
      rw [precompute]
      simp only [hfull, if_true]
      rw [bind_run_ok (draw env) _ st { st with draws := st.draws + 1 } (env.random st.draws) rfl]
      by_cases hacc : env.rnd (env.random st.draws / M_E env) ≤ 1
      · simp only [hacc, if_true] at hge ⊢
        obtain ⟨m, hm, hrun⟩ := ih fuel1 (precomp ++ [env.rnd (env.random st.draws / M_E env)])
          { st with draws := st.draws + 1 } hfuel1
          (by simp only [List.length_append, List.length_singleton]; omega)
          (by simp only [List.length_append, List.length_singleton, List.length_cons,
                List.length_nil] at hge ⊢; omega)
        refine ⟨m + 1, by omega, ?_⟩
        rw [hrun, List.append_assoc]
        simp only [Nat.add_assoc, Nat.add_comm 1 m]
      · simp only [hacc, if_false] at hge ⊢
        obtain ⟨m, hm, hrun⟩ := ih fuel1 precomp { st with draws := st.draws + 1 } hfuel1 hle
          (by simpa using hge)
        refine ⟨m + 1, by omega, ?_⟩
        rw [hrun, List.nil_append]
        simp only [Nat.add_assoc, Nat.add_comm 1 m]
    · have hlen : precomp.length = SAMPLES := by omega
      refine ⟨0, Nat.zero_le _, ?_⟩
      have htake : List.take SAMPLES (precomp ++ accepted env st.draws (n + 1)) = precomp := by
        rw [← hlen, List.take_left]
      rw [htake]
      cases fuel with
      | zero => simp [precompute, hfull]
      | succ fuel => simp [precompute, hfull]

theorem round_half_even_nonneg {x : ℚ} (hx : 0 ≤ x) : 0 ≤ round_half_even x := by
  have hf : (0 : ℤ) ≤ ⌊x⌋ := Int.floor_nonneg.mpr hx
  unfold round_half_even
  simp only
  split_ifs <;> omega

theorem ieee_round_nonneg (x : ℚ) (hx : 0 ≤ x) : 0 ≤ ieee_round x := by
  unfold ieee_round
  split_ifs with h0
  · exact le_refl _
  · simp only
    have hpow : (0 : ℚ) < 2 ^ (max (Int.log 2 |x|) (-1022) - 52) := by positivity
    have hr : 0 ≤ round_half_even (x / 2 ^ (max (Int.log 2 |x|) (-1022) - 52)) :=
      round_half_even_nonneg (div_nonneg hx hpow.le)
    exact mul_nonneg (by exact_mod_cast hr) hpow.le

theorem ieee_round_zero : ieee_round 0 = 0 := by
  simp [ieee_round]

/-- C7: for every stream of non-negative draws whose next `n` draws hold at least 2048 values
`d` with `d / M_E ≤ 1`, the generator loop of `perform_random_read_benchmark` returns (given
fuel for `n` draws) exactly 2048 positions, each in `[0, 1]`: the first 2048 accepted values
`d / M_E` in draw order, whatever the number of rejected draws in between. -/
theorem random_positions (env : Env) (st : State) (n fuel : Nat)
    (hrnd : ∀ x : ℚ, 0 ≤ x → 0 ≤ env.rnd x)
    (hd : ∀ i, 0 ≤ env.random (st.draws + i))
    (hn : SAMPLES ≤ (accepted env st.draws n).length) (hfuel : n ≤ fuel) :
    (precompute env fuel [] st).1 = .ok ((accepted env st.draws n).take SAMPLES) ∧
    ((accepted env st.draws n).take SAMPLES).length = 2048 ∧
    ∀ x ∈ (accepted env st.draws n).take SAMPLES, 0 ≤ x ∧ x ≤ 1 := by
  obtain ⟨m, _, hrun⟩ := precompute_run env n fuel [] st hfuel (Nat.zero_le _)
    (by simpa using hn)
  refine ⟨?_, ?_, ?_⟩
  · rw [hrun, List.nil_append]
  · rw [List.length_take, Nat.min_eq_left hn]
    rfl
  · intro x hx
    have hx1 : x ∈ accepted env st.draws n := List.mem_of_mem_take hx
    exact ⟨accepted_nonneg env st.draws n hrnd hd x hx1, accepted_le_one env st.draws n x hx1⟩

theorem accepted_ieee_zero (r d0 n : Nat) : (accepted (Env.ieee r) d0 n).length = n := by
  unfold accepted
  rw [List.filter_eq_self.mpr, List.length_map, List.length_range]
  intro x hx
  obtain ⟨i, _, rfl⟩ := List.mem_map.mp hx
  simp [Env.ieee, Env.ideal, ieee_round_zero]

theorem random_positions_witness :
    (∀ x : ℚ, 0 ≤ x → 0 ≤ (Env.ieee 0).rnd x) ∧
    (∀ i, 0 ≤ (Env.ieee 0).random ((State.start []).draws + i)) ∧
    SAMPLES ≤ (accepted (Env.ieee 0) (State.start []).draws 2048).length ∧ 2048 ≤ 3000 ∧
    (precompute (Env.ieee 0) 3000 [] (State.start [])).1 =
      .ok ((accepted (Env.ieee 0) (State.start []).draws 2048).take SAMPLES) :=
  ⟨ieee_round_nonneg, fun _ => le_refl _, by rw [accepted_ieee_zero]; rfl, by decide,
    (random_positions (Env.ieee 0) (State.start []) 2048 3000 ieee_round_nonneg
      (fun _ => le_refl _) (by rw [accepted_ieee_zero]; rfl) (by decide)).1⟩

/-! ## The timed reads -/

theorem measure_from_length (env : Env) (xs : List ℚ) :
    ∀ k, (measure_from env k xs).length = xs.length := by
  induction xs with
  | nil => intro k; rfl
  | cons x xs ih => intro k; simp [measure_from, ih]

/-- The loop over `precomp` when the flag stays clear: every position is read and measured. -/
theorem timed_reads_run (env : Env) (xs : List ℚ) :
    ∀ (results : List (ℚ × ℚ)) (st : State),
      (∀ i, i < xs.length → env.quit (st.calls + i) = false) → st.block ≠ 0 →
      timed_reads env xs results st =
        (.ok (results ++ measure_from env st.calls xs),
          { st with
            calls := st.calls + xs.length
            trace := st.trace ++ xs
            reads := st.reads ++ reads_of env st.capacity st.block xs }) := by
  induction xs with
  | nil =>
    intro results st _ _
    simp [timed_reads, measure_from, reads_of]
  | cons x xs ih =>
    intro results st hq hb
    have hq0 : env.quit st.calls = false := by simpa using hq 0 (by simp)
    rw [timed_reads, bind_run_ok _ _ st _ _ (read_position_ok env x st hq0 hb)]
    rw [ih]
    · simp [measure_from, reads_of, Nat.add_assoc, Nat.add_comm 1]
    · intro i hi
      have := hq (i + 1) (by simpa using hi)
      simpa [Nat.add_assoc, Nat.add_comm 1] using this
    · exact hb

/-- The loop over `precomp` when the flag is set at its first read. -/
theorem timed_reads_cancelled (env : Env) (x : ℚ) (xs : List ℚ) (results : List (ℚ × ℚ))
    (st : State) (hq : env.quit st.calls = true) :
    timed_reads env (x :: xs) results st =
      (.error .normal_exit, { st with calls := st.calls + 1, trace := st.trace ++ [x] }) := by
  rw [timed_reads, bind_run_error _ _ st _ _ (read_position_cancelled env x st hq)]

/-! ## The result file -/

theorem append_records_nil (path : String) (files : List (String × List String)) :
    append_records path [] files = files := by
  unfold append_records
  conv_rhs => rw [← List.map_id files]
  apply List.map_congr_left
  intro f _
  split_ifs <;> simp

theorem append_records_append (path : String) (r1 r2 : List String)
    (files : List (String × List String)) :
    append_records path r2 (append_records path r1 files) =
      append_records path (r1 ++ r2) files := by
  unfold append_records
  rw [List.map_map]
  apply List.map_congr_left
  intro f _
  by_cases h : f.1 = path
  · simp [h]
  · simp [h]

theorem append_records_truncated (path : String) (recs c : List String)
    (files : List (String × List String)) :
    append_records path recs ((path, c) :: files.filter (fun f => f.1 ≠ path)) =
      (path, c ++ recs) :: files.filter (fun f => f.1 ≠ path) := by
  unfold append_records
  rw [List.map_cons]
  congr 1
  · simp
  · conv_rhs => rw [← List.map_id (List.filter _ files)]
    apply List.map_congr_left
    intro f hf
    have h : f.1 ≠ path := by simpa using (List.mem_filter.mp hf).2
    simp [h]

theorem ofstream_write_run (path record : String) (st : State) :
    ofstream_write path record st =
      (.ok (), { st with files := append_records path [record] st.files }) := rfl

theorem ofstream_open_run (path : String) (st : State) :
    ofstream_open path st = (.ok (), { st with files := truncated path st.files }) := rfl

/-- The measurements that precede the first one with a non-positive duration. -/
theorem write_measurements_run (path : String) (results : List (ℚ × ℚ)) :
    ∀ st : State, write_measurements path results st =
      (if results.all (fun x => decide (0 < x.2)) then .ok ()
        else .error (.runtime_error "invalid block access measurement, repeat the test"),
        { st with
          files := append_records path
                    ((results.takeWhile (fun x => decide (0 < x.2))).map measurement_line)
                    st.files }) := by
  induction results with
  | nil =>
    intro st
    simp [write_measurements, append_records_nil]
  | cons x xs ih =>
    intro st
    by_cases hx : x.2 ≤ 0
    · have hx1 : ¬ 0 < x.2 := not_lt.mpr hx
      simp [write_measurements, hx, hx1, append_records_nil]
    · have hx1 : 0 < x.2 := not_le.mp hx
      rw [write_measurements]
      simp only [hx, if_false]
      have hd : decide (0 < x.2) = true := decide_eq_true hx1
      rw [bind_run_ok _ _ st _ _ (ofstream_write_run path (measurement_line x) st), ih]
      simp only [List.all_cons, List.takeWhile_cons, hd, Bool.true_and, if_true, List.map_cons,
        append_records_append, List.singleton_append]

theorem write_results_run (env : Env) (results : List (ℚ × ℚ)) (st : State)
    (hopen : env.can_open (results_path st) = true) :
    write_results env results st =
      (if results.all (fun x => decide (0 < x.2)) then .ok ()
        else .error (.runtime_error "invalid block access measurement, repeat the test"),
        { st with
          files := (results_path st, [st.name, toString st.block] ++
                      (results.takeWhile (fun x => decide (0 < x.2))).map measurement_line) ::
                    st.files.filter (fun f => f.1 ≠ results_path st) }) := by
  unfold write_results
  simp only [hopen, if_true]
  rw [bind_run_ok _ _ st _ _ (ofstream_open_run _ st)]
  rw [bind_run_ok _ _ _ _ _ (ofstream_write_run _ _ _)]
  rw [bind_run_ok _ _ _ _ _ (ofstream_write_run _ _ _)]
  rw [write_measurements_run]
  simp only [truncated, append_records_append, append_records_truncated, List.nil_append,
    List.singleton_append, List.cons_append]

theorem write_results_closed (env : Env) (results : List (ℚ × ℚ)) (st : State)
    (hopen : env.can_open (results_path st) = false) :
    write_results env results st = (.error (.runtime_error "can't open results file"), st) := by
  unfold write_results
  simp [hopen]

/-! ## Evaluating roundings and number output -/

theorem int_log_eq (b : Nat) (hb : 1 < b) (r : ℚ) (k : ℤ) (h1 : (b : ℚ) ^ k ≤ r)
    (h2 : r < (b : ℚ) ^ (k + 1)) : Int.log b r = k := by
  have hb0 : (0 : ℚ) < b := by exact_mod_cast (by omega : 0 < b)
  have hr : 0 < r := lt_of_lt_of_le (zpow_pos hb0 k) h1
  have hle : k ≤ Int.log b r := (Int.zpow_le_iff_le_log hb hr).mp h1
  have hlt : Int.log b r < k + 1 := (Int.lt_zpow_iff_log_lt hb hr).mp h2
  omega

theorem round_half_even_below (x : ℚ) (n : ℤ) (h1 : (n : ℚ) ≤ x) (h2 : x < n + 1 / 2) :
    round_half_even x = n := by
  have hf : ⌊x⌋ = n := Int.floor_eq_iff.mpr ⟨h1, by linarith⟩
  unfold round_half_even
  simp only [hf]
  rw [if_pos (by linarith)]

theorem round_half_even_above (x : ℚ) (n : ℤ) (h1 : (n : ℚ) + 1 / 2 < x) (h2 : x < n + 1) :
    round_half_even x = n + 1 := by
  have hf : ⌊x⌋ = n := Int.floor_eq_iff.mpr ⟨by linarith, h2⟩
  unfold round_half_even
  simp only [hf]
  rw [if_neg (by linarith), if_pos (by linarith)]

theorem ieee_round_eq (x : ℚ) (k m : ℤ) (h1 : (2 : ℚ) ^ k ≤ x) (h2 : x < (2 : ℚ) ^ (k + 1))
    (hk : -1022 ≤ k) (hm : round_half_even (x / 2 ^ (k - 52)) = m) :
    ieee_round x = m * 2 ^ (k - 52) := by
  have hx : 0 < x := lt_of_lt_of_le (by positivity) h1
  have hlog : Int.log 2 |x| = k := by
    rw [abs_of_pos hx]
    exact int_log_eq 2 (by decide) x k (by exact_mod_cast h1) (by exact_mod_cast h2)
  unfold ieee_round
  rw [if_neg hx.ne']
  simp only [hlog, max_eq_left hk, hm]

theorem format_double_eq (x : ℚ) (X : ℤ) (m : Nat) (h1 : (10 : ℚ) ^ X ≤ x)
    (h2 : x < (10 : ℚ) ^ (X + 1)) (hm : round_half_even (x / 10 ^ (X - 5)) = m)
    (hm6 : m ≠ 10 ^ 6) : format_double x = layout_g m X := by
  have hx : 0 < x := lt_of_lt_of_le (by positivity) h1
  have hlog : Int.log 10 |x| = X := by
    rw [abs_of_pos hx]
    exact int_log_eq 10 (by decide) x X (by exact_mod_cast h1) (by exact_mod_cast h2)
  have hm1 : (round_half_even (|x| / 10 ^ (X - 5))).toNat = m := by
    rw [abs_of_pos hx, hm, Int.toNat_ofNat]
  unfold format_double
  rw [if_neg hx.ne']
  simp only [hlog, hm1, if_neg hm6, if_neg (not_lt.mpr hx.le)]
  simp

theorem format_one_tenth : format_double (1 / 10) = "0.1" := by
  rw [format_double_eq (1 / 10) (-1) 100000 (by norm_num) (by norm_num)
    (round_half_even_below _ 100000 (by norm_num) (by norm_num)) (by norm_num)]
  decide

theorem format_two_thousandths : format_double (2 / 1000) = "0.002" := by
  rw [format_double_eq (2 / 1000) (-3) 200000 (by norm_num) (by norm_num)
    (round_half_even_below _ 200000 (by norm_num) (by norm_num)) (by norm_num)]
  decide

theorem format_one_half : format_double (5 / 10) = "0.5" := by
  rw [format_double_eq (5 / 10) (-1) 500000 (by norm_num) (by norm_num)
    (round_half_even_below _ 500000 (by norm_num) (by norm_num)) (by norm_num)]
  decide

theorem format_three_thousandths : format_double (3 / 1000) = "0.003" := by
  rw [format_double_eq (3 / 1000) (-3) 300000 (by norm_num) (by norm_num)
    (round_half_even_below _ 300000 (by norm_num) (by norm_num)) (by norm_num)]
  decide

/-! ## The example measurements as doubles -/

theorem ieee_one_tenth : ieee_round (1 / 10) = 3602879701896397 / 36028797018963968 := by
  rw [ieee_round_eq (1 / 10) (-4) 7205759403792794 (by norm_num) (by norm_num) (by norm_num)
    (round_half_even_above _ 7205759403792793 (by norm_num) (by norm_num))]
  norm_num

theorem ieee_two_thousandths :
    ieee_round (2 / 1000) = 1152921504606847 / 576460752303423488 := by
  rw [ieee_round_eq (2 / 1000) (-9) 4611686018427388 (by norm_num) (by norm_num) (by norm_num)
    (round_half_even_above _ 4611686018427387 (by norm_num) (by norm_num))]
  norm_num

theorem ieee_one_half : ieee_round (5 / 10) = 1 / 2 := by
  rw [ieee_round_eq (5 / 10) (-1) 4503599627370496 (by norm_num) (by norm_num) (by norm_num)
    (round_half_even_below _ 4503599627370496 (by norm_num) (by norm_num))]
  norm_num

theorem ieee_three_thousandths :
    ieee_round (3 / 1000) = 3458764513820541 / 1152921504606846976 := by
  rw [ieee_round_eq (3 / 1000) (-9) 6917529027641082 (by norm_num) (by norm_num) (by norm_num)
    (round_half_even_above _ 6917529027641081 (by norm_num) (by norm_num))]
  norm_num

theorem format_double_one_tenth : format_double (ieee_round (1 / 10)) = "0.1" := by
  rw [ieee_one_tenth, format_double_eq _ (-1) 100000 (by norm_num) (by norm_num)
    (round_half_even_below _ 100000 (by norm_num) (by norm_num)) (by norm_num)]
  decide

theorem format_double_two_thousandths : format_double (ieee_round (2 / 1000)) = "0.002" := by
  rw [ieee_two_thousandths, format_double_eq _ (-3) 200000 (by norm_num) (by norm_num)
    (round_half_even_below _ 200000 (by norm_num) (by norm_num)) (by norm_num)]
  decide

theorem format_double_one_half : format_double (ieee_round (5 / 10)) = "0.5" := by
  rw [ieee_one_half, format_double_eq _ (-1) 500000 (by norm_num) (by norm_num)
    (round_half_even_below _ 500000 (by norm_num) (by norm_num)) (by norm_num)]
  decide

theorem format_double_three_thousandths : format_double (ieee_round (3 / 1000)) = "0.003" := by
  rw [ieee_three_thousandths, format_double_eq _ (-3) 300000 (by norm_num) (by norm_num)
    (round_half_even_below _ 300000 (by norm_num) (by norm_num)) (by norm_num)]
  decide

/-- C8: writing the measurements `m_1 .. m_k` of a run, all with positive latency, for device
name `N` and block size `B` produces (when the file opens) a file whose records are exactly
`N`, `B` in decimal, and one line `position:elapsed` per measurement in order; for `TESTDRIVE`,
512 and the measurements `(0.1, 0.002)`, `(0.5, 0.003)` they are `TESTDRIVE`, `512`,
`0.1:0.002`, `0.5:0.003`, both for the doubles nearest to these decimals and for the exact
decimal values. -/
theorem result_file_lines :
    (∀ (env : Env) (st : State) (results : List (ℚ × ℚ)),
      env.can_open (results_path st) = true → (∀ x ∈ results, 0 < x.2) →
      (write_results env results st).1 = .ok () ∧
      (write_results env results st).2.files =
        (results_path st, [st.name, toString st.block] ++ results.map measurement_line) ::
          st.files.filter (fun f => f.1 ≠ results_path st)) ∧
    (write_results (Env.ieee 0)
        [(ieee_round (1 / 10), ieee_round (2 / 1000)),
          (ieee_round (5 / 10), ieee_round (3 / 1000))] State.testdrive).2.files =
      [("TESTDRIVE_512.txt", ["TESTDRIVE", "512", "0.1:0.002", "0.5:0.003"])] ∧
    (write_results (Env.ideal 0) [(1 / 10, 2 / 1000), (5 / 10, 3 / 1000)] State.testdrive).2.files =
      [("TESTDRIVE_512.txt", ["TESTDRIVE", "512", "0.1:0.002", "0.5:0.003"])] := by
  have hgen : ∀ (env : Env) (st : State) (results : List (ℚ × ℚ)),
      env.can_open (results_path st) = true → (∀ x ∈ results, 0 < x.2) →
      (write_results env results st).1 = .ok () ∧
      (write_results env results st).2.files =
        (results_path st, [st.name, toString st.block] ++ results.map measurement_line) ::
          st.files.filter (fun f => f.1 ≠ results_path st) := by
    intro env st results hopen hpos
    have hall : results.all (fun x => decide (0 < x.2)) = true := by
      rw [List.all_eq_true]
      intro x hx
      exact decide_eq_true (hpos x hx)
    have htake : results.takeWhile (fun x => decide (0 < x.2)) = results := by
      rw [List.takeWhile_eq_self_iff]
      intro x hx
      exact decide_eq_true (hpos x hx)
    rw [write_results_run env results st hopen, hall, htake]
    exact ⟨rfl, rfl⟩
  have hpath : results_path State.testdrive = "TESTDRIVE_512.txt" := by decide
  refine ⟨hgen, ?_, ?_⟩
  · rw [(hgen (Env.ieee 0) State.testdrive _ rfl
      (by
        intro x hx
        simp only [List.mem_cons, List.mem_singleton, List.not_mem_nil, or_false] at hx
        rcases hx with rfl | rfl
        · simp only [ieee_two_thousandths]
          norm_num
        · simp only [ieee_three_thousandths]
          norm_num)).2, hpath]
    simp only [List.map_cons, List.map_nil, measurement_line, format_double_one_tenth,
      format_double_two_thousandths, format_double_one_half, format_double_three_thousandths]
    decide
  · rw [(hgen (Env.ideal 0) State.testdrive [(1 / 10, 2 / 1000), (5 / 10, 3 / 1000)] rfl
      (by intro x hx; simp at hx; rcases hx with rfl | rfl <;> norm_num)).2, hpath]
    simp only [List.map_cons, List.map_nil, measurement_line, format_one_tenth,
      format_two_thousandths, format_one_half, format_three_thousandths]
    decide

theorem result_file_lines_witness :
    (Env.ideal 0).can_open (results_path State.testdrive) = true ∧
    (∀ x ∈ [((1 : ℚ) / 4, (1 : ℚ) / 8)], 0 < x.2) ∧
    (write_results (Env.ideal 0) [(1 / 4, 1 / 8)] State.testdrive).1 = .ok () :=
  ⟨rfl, by intro x hx; simp at hx; subst hx; norm_num,
    (result_file_lines.1 (Env.ideal 0) State.testdrive [(1 / 4, 1 / 8)] rfl
      (by intro x hx; simp at hx; subst hx; norm_num)).1⟩

/-! ## Runs of the random read benchmark -/

/-- A run whose setup succeeds and whose reads are not cancelled reaches the writing of the
result file with the 2048 measurements of the first accepted positions. -/
theorem benchmark_reaches_write (env : Env) (fuel block_size r n : Nat) (st : State)
    (hb : block_size ≤ MiB) (hb0 : block_size ≠ 0) (hr : env.raw_size = some r)
    (hn : SAMPLES ≤ (accepted env st.draws n).length) (hfuel : n ≤ fuel)
    (hq : ∀ i, i < SAMPLES → env.quit (st.calls + i) = false) :
    ∃ m, perform_random_read_benchmark env fuel block_size st =
      write_results env (measure_from env st.calls ((accepted env st.draws n).take SAMPLES))
        { st with
          block := block_size
          capacity := (r + SIZE - block_size) % SIZE
          draws := st.draws + m
          calls := st.calls + SAMPLES
          trace := st.trace ++ (accepted env st.draws n).take SAMPLES
          reads := st.reads ++ reads_of env ((r + SIZE - block_size) % SIZE) block_size
                    ((accepted env st.draws n).take SAMPLES) } := by
  obtain ⟨m, _, hrun⟩ := precompute_run env n fuel []
    { st with block := block_size, capacity := (r + SIZE - block_size) % SIZE } hfuel
    (Nat.zero_le _) (by simpa using hn)
  have hlen : ((accepted env st.draws n).take SAMPLES).length = SAMPLES := by
    rw [List.length_take, Nat.min_eq_left hn]
  refine ⟨m, ?_⟩
  rw [perform_random_read_benchmark,
    bind_run_ok _ _ _ _ _ (set_block_size_ok env block_size r st hb hr),
    bind_run_ok _ _ _ _ _ hrun, List.nil_append]
  rw [bind_run_ok _ _ _ _ _ (timed_reads_run env _ [] _ (by
    intro i hi
    rw [hlen] at hi
    exact hq i hi) hb0)]
  simp only [List.nil_append, hlen]

/-- A run whose setup succeeds and whose first read finds the flag set ends there with
`normal_exit`: no device read, no file. -/
theorem benchmark_cancelled (env : Env) (fuel block_size r n : Nat) (st : State)
    (hb : block_size ≤ MiB) (hr : env.raw_size = some r)
    (hn : SAMPLES ≤ (accepted env st.draws n).length) (hfuel : n ≤ fuel)
    (hq : env.quit st.calls = true) :
    (perform_random_read_benchmark env fuel block_size st).1 = .error .normal_exit ∧
    (perform_random_read_benchmark env fuel block_size st).2.reads = st.reads ∧
    (perform_random_read_benchmark env fuel block_size st).2.files = st.files ∧
    (perform_random_read_benchmark env fuel block_size st).2.calls = st.calls + 1 := by
  obtain ⟨m, _, hrun⟩ := precompute_run env n fuel []
    { st with block := block_size, capacity := (r + SIZE - block_size) % SIZE } hfuel
    (Nat.zero_le _) (by simpa using hn)
  have hlen : ((accepted env st.draws n).take SAMPLES).length = SAMPLES := by
    rw [List.length_take, Nat.min_eq_left hn]
  obtain ⟨x, xs, hxs⟩ : ∃ x xs, (accepted env st.draws n).take SAMPLES = x :: xs := by
    cases h : (accepted env st.draws n).take SAMPLES with
    | nil => rw [h] at hlen; exact absurd hlen (by decide)
    | cons x xs => exact ⟨x, xs, rfl⟩
  rw [perform_random_read_benchmark,
    bind_run_ok _ _ _ _ _ (set_block_size_ok env block_size r st hb hr),
    bind_run_ok _ _ _ _ _ hrun, List.nil_append, hxs]
  rw [bind_run_error _ _ _ _ _ (timed_reads_cancelled env x xs [] _ (by exact hq))]
  exact ⟨rfl, rfl, rfl, rfl⟩

theorem takeWhile_length_lt {α : Type} (p : α → Bool) (l : List α)
    (h : ∃ x ∈ l, p x = false) : (l.takeWhile p).length < l.length := by
  induction l with
  | nil =>
    obtain ⟨x, hx, _⟩ := h
    exact absurd hx (List.not_mem_nil x)
  | cons a l ih =>
    by_cases ha : p a = true
    · rw [List.takeWhile_cons_of_pos ha]
      obtain ⟨x, hx, hpx⟩ := h
      rcases List.mem_cons.mp hx with rfl | hx1
      · rw [ha] at hpx
        exact absurd hpx (by decide)
      · have := ih ⟨x, hx1, hpx⟩
        simp only [List.length_cons]
        omega
    · rw [List.takeWhile_cons_of_neg ha]
      simp

/-- The outcome of a run that reaches the writing of the result file with a measurement whose
duration is not positive. -/
theorem benchmark_invalid (env : Env) (fuel block_size r n : Nat) (st : State)
    (hb : block_size ≤ MiB) (hb0 : block_size ≠ 0) (hr : env.raw_size = some r)
    (hn : SAMPLES ≤ (accepted env st.draws n).length) (hfuel : n ≤ fuel)
    (hq : ∀ i, i < SAMPLES → env.quit (st.calls + i) = false)
    (hbad : ∃ x ∈ measure_from env st.calls ((accepted env st.draws n).take SAMPLES), x.2 ≤ 0) :
    (env.can_open (results_path { st with block := block_size }) = true →
      (perform_random_read_benchmark env fuel block_size st).1 =
        .error (.runtime_error "invalid block access measurement, repeat the test") ∧
      (perform_random_read_benchmark env fuel block_size st).2.files =
        (results_path { st with block := block_size }, [st.name, toString block_size] ++
          ((measure_from env st.calls ((accepted env st.draws n).take SAMPLES)).takeWhile
            (fun x => decide (0 < x.2))).map measurement_line) ::
          st.files.filter (fun f => f.1 ≠ results_path { st with block := block_size }) ∧
      ((measure_from env st.calls ((accepted env st.draws n).take SAMPLES)).takeWhile
          (fun x => decide (0 < x.2))).length < SAMPLES) ∧
    (env.can_open (results_path { st with block := block_size }) = false →
      (perform_random_read_benchmark env fuel block_size st).1 =
        .error (.runtime_error "can't open results file") ∧
      (perform_random_read_benchmark env fuel block_size st).2.files = st.files) := by
  obtain ⟨m, hrun⟩ := benchmark_reaches_write env fuel block_size r n st hb hb0 hr hn hfuel hq
  have hlen : (measure_from env st.calls ((accepted env st.draws n).take SAMPLES)).length
      = SAMPLES := by
    rw [measure_from_length, List.length_take, Nat.min_eq_left hn]
  have hall : (measure_from env st.calls ((accepted env st.draws n).take SAMPLES)).all
      (fun x => decide (0 < x.2)) = false := by
    obtain ⟨x, hx, hx2⟩ := hbad
    rw [List.all_eq_false]
    exact ⟨x, hx, by simpa using hx2⟩
  rw [hrun]
  refine ⟨?_, ?_⟩
  · intro hopen
    rw [write_results_run env _ _ (by exact hopen), hall]
    refine ⟨rfl, rfl, ?_⟩
    have hlt := takeWhile_length_lt (fun x : ℚ × ℚ => decide (0 < x.2))
      (measure_from env st.calls ((accepted env st.draws n).take SAMPLES))
      (by
        obtain ⟨x, hx, hx2⟩ := hbad
        exact ⟨x, hx, by simpa using hx2⟩)
    rw [hlen] at hlt
    exact hlt
  · intro hopen
    rw [write_results_closed env _ _ (by exact hopen)]
    exact ⟨rfl, rfl⟩

theorem accepted_of_zero (env : Env) (h0 : env.rnd 0 = 0) (hr : ∀ i, env.random i = 0)
    (d0 n : Nat) : accepted env d0 n = List.replicate n 0 := by
  induction n generalizing d0 with
  | zero => rfl
  | succ n ih =>
    rw [accepted_succ, ih, hr d0, zero_div, h0]
    simp [List.replicate_succ]

theorem stalled_results (r k : Nat) :
    measure_from (Env.stalled r) k ((accepted (Env.stalled r) 0 2048).take SAMPLES) =
      (0, 0) :: measure_from (Env.stalled r) (k + 1) (List.replicate 2047 0) := by
  rw [accepted_of_zero (Env.stalled r) rfl (fun _ => rfl)]
  have h : List.take SAMPLES (List.replicate 2048 (0 : ℚ)) = 0 :: List.replicate 2047 0 := by
    rw [List.take_replicate]
    rfl
  rw [h]
  rfl

theorem stalled_accepted_length (r d0 : Nat) :
    SAMPLES ≤ (accepted (Env.stalled r) d0 2048).length := by
  rw [accepted_of_zero (Env.stalled r) rfl (fun _ => rfl), List.length_replicate]
  decide

theorem stalled_has_invalid (r : Nat) :
    ∃ x ∈ measure_from (Env.stalled r) State.testdrive.calls
      ((accepted (Env.stalled r) State.testdrive.draws 2048).take SAMPLES), x.2 ≤ 0 := by
  refine ⟨(0, 0), ?_, le_refl _⟩
  have h := stalled_results r 0
  simp only [State.testdrive, State.start]
  rw [h]
  exact List.mem_cons_self _ _

theorem stalled_written (r : Nat) :
    (measure_from (Env.stalled r) State.testdrive.calls
      ((accepted (Env.stalled r) State.testdrive.draws 2048).take SAMPLES)).takeWhile
        (fun x => decide (0 < x.2)) = [] := by
  have h := stalled_results r 0
  simp only [State.testdrive, State.start]
  rw [h, List.takeWhile_cons_of_neg]
  norm_num

/-- C5, as amended: a random-benchmark run that records a measurement with
`elapsed_seconds ≤ 0` fails: with the invalid-measurement error when the result file could be
opened, and then the file has been created and holds the name, the block size and the lines of
the measurements before the first non-positive one, fewer than the 2048 of a complete file;
with the error of the result file when it could not be opened, and then no file is written. -/
theorem invalid_measurement_run (env : Env) (fuel block_size r n : Nat) (st : State)
    (hb : block_size ≤ MiB) (hb0 : block_size ≠ 0) (hr : env.raw_size = some r)
    (hn : SAMPLES ≤ (accepted env st.draws n).length) (hfuel : n ≤ fuel)
    (hq : ∀ i, i < SAMPLES → env.quit (st.calls + i) = false)
    (hbad : ∃ x ∈ measure_from env st.calls ((accepted env st.draws n).take SAMPLES), x.2 ≤ 0) :
    (env.can_open (results_path { st with block := block_size }) = true →
      (perform_random_read_benchmark env fuel block_size st).1 =
        .error (.runtime_error "invalid block access measurement, repeat the test") ∧
      (perform_random_read_benchmark env fuel block_size st).2.files =
        (results_path { st with block := block_size }, [st.name, toString block_size] ++
          ((measure_from env st.calls ((accepted env st.draws n).take SAMPLES)).takeWhile
            (fun x => decide (0 < x.2))).map measurement_line) ::
          st.files.filter (fun f => f.1 ≠ results_path { st with block := block_size }) ∧
      ((measure_from env st.calls ((accepted env st.draws n).take SAMPLES)).takeWhile
          (fun x => decide (0 < x.2))).length < SAMPLES) ∧
    (env.can_open (results_path { st with block := block_size }) = false →
      (perform_random_read_benchmark env fuel block_size st).1 =
        .error (.runtime_error "can't open results file") ∧
      (perform_random_read_benchmark env fuel block_size st).2.files = st.files) :=
  benchmark_invalid env fuel block_size r n st hb hb0 hr hn hfuel hq hbad

theorem invalid_measurement_run_witness :
    512 ≤ MiB ∧ (512 : Nat) ≠ 0 ∧ (Env.stalled 4096).raw_size = some 4096 ∧
    SAMPLES ≤ (accepted (Env.stalled 4096) State.testdrive.draws 2048).length ∧
    (∀ i, i < SAMPLES → (Env.stalled 4096).quit (State.testdrive.calls + i) = false) ∧
    (∃ x ∈ measure_from (Env.stalled 4096) State.testdrive.calls
      ((accepted (Env.stalled 4096) State.testdrive.draws 2048).take SAMPLES), x.2 ≤ 0) ∧
    (Env.stalled 4096).can_open (results_path { State.testdrive with block := 512 }) = true ∧
    (perform_random_read_benchmark (Env.stalled 4096) 2048 512 State.testdrive).1 =
      .error (.runtime_error "invalid block access measurement, repeat the test") :=
  ⟨by norm_num [MiB], by decide, rfl, stalled_accepted_length 4096 _, fun _ _ => rfl,
    stalled_has_invalid 4096, rfl,
    ((invalid_measurement_run (Env.stalled 4096) 2048 512 4096 2048 State.testdrive
      (by norm_num [MiB]) (by decide) rfl (stalled_accepted_length 4096 _) (le_refl _)
      (fun _ _ => rfl) (stalled_has_invalid 4096)).1 rfl).1⟩

/-- Counterexample to C5 as stated: on a device whose reads are all measured as taking no time
the run fails with the invalid-measurement error, yet the result file exists afterwards and
holds the two header lines. -/
theorem invalid_measurement_leaves_file :
    (∃ x ∈ measure_from (Env.stalled 4096) State.testdrive.calls
      ((accepted (Env.stalled 4096) State.testdrive.draws 2048).take SAMPLES), x.2 ≤ 0) ∧
    (perform_random_read_benchmark (Env.stalled 4096) 2048 512 State.testdrive).1 =
      .error (.runtime_error "invalid block access measurement, repeat the test") ∧
    State.testdrive.files = [] ∧
    (perform_random_read_benchmark (Env.stalled 4096) 2048 512 State.testdrive).2.files =
      [("TESTDRIVE_512.txt", ["TESTDRIVE", "512"])] ∧
    (perform_random_read_benchmark (Env.stalled 4096) 2048 512 State.testdrive).2.files ≠
      State.testdrive.files := by
  have h := (benchmark_invalid (Env.stalled 4096) 2048 512 4096 2048 State.testdrive
      (by norm_num [MiB]) (by decide) rfl (stalled_accepted_length 4096 _) (le_refl _)
      (fun _ _ => rfl) (stalled_has_invalid 4096)).1 rfl
  have hfiles : (perform_random_read_benchmark (Env.stalled 4096) 2048 512
      State.testdrive).2.files = [("TESTDRIVE_512.txt", ["TESTDRIVE", "512"])] := by
    rw [h.2.1, stalled_written]
    decide
  refine ⟨stalled_has_invalid 4096, h.1, rfl, hfiles, ?_⟩
  rw [hfiles]
  decide

/-! ## The last block of a very large device -/

theorem jittered_length (env : Env) (ps : List ℚ) : ∀ d, (jittered env d ps).length = ps.length := by
  induction ps with
  | nil => intro d; rfl
  | cons p ps ih => intro d; simp [jittered, ih]

theorem jittered_append (env : Env) (ps qs : List ℚ) :
    ∀ d, jittered env d (ps ++ qs) = jittered env d ps ++ jittered env (d + ps.length) qs := by
  induction ps with
  | nil => intro d; simp [jittered]
  | cons p ps ih =>
    intro d
    have h : d + (ps.length + 1) = d + 1 + ps.length := by omega
    rw [List.cons_append, jittered, jittered, ih, List.length_cons, List.cons_append, h]

theorem after_reads_nil (env : Env) (st : State) : after_reads env [] st = st := by
  simp [after_reads, jittered, reads_of]

theorem after_reads_append (env : Env) (ps qs : List ℚ) (st : State) :
    after_reads env (ps ++ qs) st = after_reads env qs (after_reads env ps st) := by
  simp [after_reads, jittered_append, reads_of, Nat.add_assoc]

/-- A call `read_position(f + cen_distr(generator))` that is not cancelled. -/
theorem read_jittered_ok (env : Env) (f : ℚ) (st : State)
    (hq : env.quit st.calls = false) (hb : st.block ≠ 0) :
    read_jittered env f st = (.ok (env.elapsed st.calls), after_reads env [f] st) := by
  rw [read_jittered, bind_run_ok (draw env) _ st { st with draws := st.draws + 1 }
    (env.random st.draws) rfl]
  rw [read_position_ok env _ _ (by exact hq) (by exact hb)]
  simp [after_reads, jittered, reads_of]

/-- A loop with `N` iterations described by an invariant: in iteration `k` the variables
satisfy `I k`, the condition holds and the body reads the values `ps k` with jitter; after
iteration `N - 1` the condition fails.  The loop then returns after all these reads. -/
theorem for_loop_inv {σ : Type} (env : Env) (cond : σ → Bool) (body : σ → M σ)
    (incr : σ → σ) (I : Nat → σ → Prop) (ps : Nat → List ℚ) (N : Nat)
    (hstep : ∀ k w, k < N → I k w → cond w = true ∧
      ∃ w1, I (k + 1) (incr w1) ∧
        ∀ st1 : State, st1.block ≠ 0 → body w st1 = (.ok w1, after_reads env (ps k) st1))
    (hend : ∀ w, I N w → cond w = false) :
    ∀ (m k : Nat) (v : σ), k + m = N → I k v →
      ∃ w, I N w ∧ ∀ (fuel : Nat) (st : State), m ≤ fuel → st.block ≠ 0 →
        for_loop cond body incr fuel v st =
          (.ok w, after_reads env ((List.range m).map (fun i => ps (k + i))).flatten st) := by
  intro m
  induction m with
  | zero =>
    intro k v hk hI
    have hkN : k = N := by omega
    subst hkN
    refine ⟨v, hI, ?_⟩
    intro fuel st _ _
    have hc := hend v hI
    cases fuel with
    | zero => simp [for_loop, hc, after_reads_nil]
    | succ fuel => simp [for_loop, hc, after_reads_nil]
  | succ m ih =>
    intro k v hk hI
    obtain ⟨hc, w1, hI1, hbody⟩ := hstep k v (by omega) hI
    obtain ⟨w, hw, hrun⟩ := ih (k + 1) (incr w1) (by omega) hI1
    refine ⟨w, hw, ?_⟩
    intro fuel st hfuel hb
    obtain ⟨fuel1, rfl⟩ : ∃ fuel1, fuel = fuel1 + 1 := ⟨fuel - 1, by omega⟩
    rw [for_loop]
    simp only [hc, if_true]
    rw [bind_run_ok _ _ st _ _ (hbody st hb)]
    rw [hrun fuel1 (after_reads env (ps k) st) (by omega) (by exact hb)]
    rw [← after_reads_append, List.range_succ_eq_map, List.map_cons, List.map_map,
      List.flatten_cons]
    have hfun : ((fun i => ps (k + i)) ∘ Nat.succ) = (fun i => ps (k + 1 + i)) := by
      funext i
      simp only [Function.comp, Nat.succ_eq_add_one]
      congr 1
      omega
    rw [hfun]
    rfl

theorem flatten_map_singleton {α : Type} (f : Nat → α) (n : Nat) :
    ((List.range n).map (fun i => [f i])).flatten = (List.range n).map f := by
  induction n with
  | zero => rfl
  | succ n ih =>
    rw [List.range_succ, List.map_append, List.map_append, List.flatten_append, ih]
    simp

theorem map_range_const {α : Type} (x : α) (n : Nat) :
    (List.range n).map (fun _ => x) = List.replicate n x := by
  induction n with
  | zero => rfl
  | succ n ih =>
    rw [List.range_succ, List.map_append, ih, List.replicate_succ']
    rfl

/-! ## The phase "buncha heads" -/

/-- One sweep with `h` heads. -/
theorem sweep_run (env : Env) (hq : ∀ k, env.quit k = false) (h : Nat) (v : Vars)
    (hv : v.heads = h) :
    ∃ w : Vars, (w.heads = v.heads ∧ w.i_ = v.i_ ∧ w.repeat_ = v.repeat_) ∧
      ∀ (fuel : Nat) (st : State), h ≤ fuel → st.block ≠ 0 →
        sweep env fuel v st = (.ok w, after_reads env (sweep_positions env h) st) := by
  obtain ⟨w, hw, hrun⟩ := for_loop_inv env (fun v : Vars => decide (v.j ≤ v.heads))
    (read_at_j env) (fun v => { v with j := v.j + 1 })
    (fun k w => w.j = k + 1 ∧ w.heads = v.heads ∧ w.i_ = v.i_ ∧ w.repeat_ = v.repeat_)
    (fun k => [env.rnd (((k + 1 : Nat) : ℚ) / ((h + 1 : Nat) : ℚ))]) h
    (by
      intro k w hk hI
      obtain ⟨hj, hh, hi, hr⟩ := hI
      refine ⟨?_, w, ⟨?_, hh, hi, hr⟩, ?_⟩
      · rw [decide_eq_true_iff, hj, hh, hv]
        exact_mod_cast hk
      · simp only [hj]
        push_cast
        ring
      · intro st1 hst1
        rw [read_at_j, bind_run_ok _ _ st1 _ _ (read_jittered_ok env _ st1 (hq _) hst1)]
        rw [hj, hh, hv]
        rfl)
    (by
      intro w hI
      obtain ⟨hj, hh, _, _⟩ := hI
      rw [decide_eq_false_iff_not, hj, hh, hv]
      omega)
    h 0 { v with j := 1 } (by omega) ⟨by simp, rfl, rfl, rfl⟩
  refine ⟨w, hw.2, ?_⟩
  intro fuel st hfuel hb
  have := hrun fuel st hfuel hb
  simp only [Nat.zero_add] at this
  rw [flatten_map_singleton] at this
  exact this

/-- The `r = 160 / h` sweeps made for `h` heads. -/
theorem heads_sweeps_run (env : Env) (hq : ∀ k, env.quit k = false) (h r fuel : Nat)
    (v : Vars) (hv : v.heads = h) (hr : Int.tdiv 160 (h : ℤ) = r) (hfuel : h ≤ fuel) :
    ∃ w : Vars, w.heads = v.heads ∧
      ∀ st : State, r ≤ fuel → st.block ≠ 0 →
        heads_sweeps env fuel v st =
          (.ok w, after_reads env (List.replicate r (sweep_positions env h)).flatten st) := by
  obtain ⟨w, hw, hrun⟩ := for_loop_inv env (fun v : Vars => decide (v.i_ < v.repeat_))
    (sweep env fuel) (fun v => { v with i_ := v.i_ + 1 })
    (fun k w => w.i_ = k ∧ w.repeat_ = r ∧ w.heads = h)
    (fun _ => sweep_positions env h) r
    (by
      intro k w hk hI
      obtain ⟨hi, hrep, hh⟩ := hI
      obtain ⟨w1, ⟨hh1, hi1, hr1⟩, hsweep⟩ := sweep_run env hq h w hh
      refine ⟨?_, w1, ⟨?_, ?_, ?_⟩, ?_⟩
      · rw [decide_eq_true_iff, hi, hrep]
        exact_mod_cast hk
      · simp only [hi1, hi]
        push_cast
        ring
      · simp only [hr1, hrep]
      · simp only [hh1, hh]
      · intro st1 hst1
        exact hsweep fuel st1 hfuel hst1)
    (by
      intro w hI
      obtain ⟨hi, hrep, _⟩ := hI
      rw [decide_eq_false_iff_not, hi, hrep]
      omega)
    r 0 { v with repeat_ := Int.tdiv 160 v.heads, i_ := 0 } (by omega)
    ⟨by simp, by simp only [hv, hr], hv⟩
  refine ⟨w, by rw [hw.2.2, hv], ?_⟩
  intro st hfuel1 hb
  have := hrun fuel st hfuel1 hb
  rw [map_range_const] at this
  exact this

/-- The loop `for (heads = 2; heads < 7; ++heads)`. -/
theorem heads_ascending_run (env : Env) (hq : ∀ k, env.quit k = false) (fuel : Nat)
    (hfuel : 80 ≤ fuel) (v : Vars) :
    ∃ w : Vars, w.heads = 7 ∧ ∀ st : State, st.block ≠ 0 →
      for_loop (fun v : Vars => decide (v.heads < 7)) (heads_sweeps env fuel)
          (fun v => { v with heads := v.heads + 1 }) fuel { v with heads := 2 } st =
        (.ok w, after_reads env (bunching_positions env [2, 3, 4, 5, 6]) st) := by
  obtain ⟨w, hw, hrun⟩ := for_loop_inv env (fun v : Vars => decide (v.heads < 7))
    (heads_sweeps env fuel) (fun v => { v with heads := v.heads + 1 })
    (fun k w => w.heads = ((2 + k : Nat) : ℤ))
    (fun k => (List.replicate (160 / (2 + k)) (sweep_positions env (2 + k))).flatten) 5
    (by
      intro k w hk hI
      obtain ⟨w1, hw1, hsw⟩ := heads_sweeps_run env hq (2 + k) (160 / (2 + k)) fuel w hI
        (by interval_cases k <;> decide) (by omega)
      refine ⟨?_, w1, ?_, ?_⟩
      · rw [decide_eq_true_iff, hI]
        omega
      · simp only [hw1, hI]
        push_cast
        ring
      · intro st1 hst1
        exact hsw st1 (by interval_cases k <;> omega) hst1)
    (by
      intro w hI
      rw [decide_eq_false_iff_not, hI]
      omega)
    5 0 { v with heads := 2 } (by omega) (by simp)
  refine ⟨w, by simpa using hw, ?_⟩
  intro st hb
  have := hrun fuel st (by omega) hb
  exact this

/-- The loop `for (; heads > 0; heads -= 2)` entered with `heads = 7`. -/
theorem heads_descending_run (env : Env) (hq : ∀ k, env.quit k = false) (fuel : Nat)
    (hfuel : 160 ≤ fuel) (v : Vars) (hv : v.heads = 7) :
    ∃ w : Vars, ∀ st : State, st.block ≠ 0 →
      for_loop (fun v : Vars => decide (v.heads > 0)) (heads_sweeps env fuel)
          (fun v => { v with heads := v.heads - 2 }) fuel v st =
        (.ok w, after_reads env (bunching_positions env [7, 5, 3, 1]) st) := by
  obtain ⟨w, _, hrun⟩ := for_loop_inv env (fun v : Vars => decide (v.heads > 0))
    (heads_sweeps env fuel) (fun v => { v with heads := v.heads - 2 })
    (fun k w => w.heads = 7 - 2 * (k : ℤ))
    (fun k => (List.replicate (160 / (7 - 2 * k)) (sweep_positions env (7 - 2 * k))).flatten) 4
    (by
      intro k w hk hI
      obtain ⟨w1, hw1, hsw⟩ := heads_sweeps_run env hq (7 - 2 * k) (160 / (7 - 2 * k)) fuel w
        (by rw [hI]; omega) (by interval_cases k <;> decide) (by omega)
      refine ⟨?_, w1, ?_, ?_⟩
      · rw [decide_eq_true_iff, hI]
        omega
      · simp only [hw1, hI]
        push_cast
        ring
      · intro st1 hst1
        exact hsw st1 (by interval_cases k <;> omega) hst1)
    (by
      intro w hI
      rw [decide_eq_false_iff_not, hI]
      omega)
    4 0 v (by omega) (by simpa using hv)
  refine ⟨w, ?_⟩
  intro st hb
  have := hrun fuel st (by omega) hb
  exact this

/-- The whole phase: head counts 2, 3, 4, 5, 6 and then 7, 5, 3, 1. -/
theorem buncha_heads_run (env : Env) (hq : ∀ k, env.quit k = false) (fuel : Nat)
    (hfuel : 160 ≤ fuel) (v : Vars) :
    ∃ w : Vars, ∀ st : State, st.block ≠ 0 →
      buncha_heads env fuel v st =
        (.ok w, after_reads env (bunching_positions env [2, 3, 4, 5, 6, 7, 5, 3, 1]) st) := by
  obtain ⟨w1, hw1, hasc⟩ := heads_ascending_run env hq fuel (by omega) v
  obtain ⟨w2, hdesc⟩ := heads_descending_run env hq fuel hfuel w1 hw1
  refine ⟨w2, ?_⟩
  intro st hb
  have happ : bunching_positions env [2, 3, 4, 5, 6] ++ bunching_positions env [7, 5, 3, 1] =
      bunching_positions env ([2, 3, 4, 5, 6] ++ [7, 5, 3, 1]) := by
    unfold bunching_positions
    rw [List.flatMap_append]
  rw [buncha_heads, bind_run_ok _ _ st _ _ (hasc st hb), hdesc _ (by exact hb),
    ← after_reads_append, happ]
  rfl

theorem jittered_exact (env : Env) (hex : ∀ x, env.rnd x = x) (hz : ∀ k, env.random k = 0)
    (ps : List ℚ) : ∀ d, jittered env d ps = ps := by
  induction ps with
  | nil => intro d; rfl
  | cons p ps ih =>
    intro d
    rw [jittered, ih, hz, hex, add_zero]

theorem after_reads_trace (env : Env) (ps : List ℚ) (st : State) :
    (after_reads env ps st).trace = st.trace ++ jittered env st.draws ps := rfl

theorem sweeps_length {α : Type} (r : Nat) (xs : List α) :
    (List.replicate r xs).flatten.length = r * xs.length := by
  induction r with
  | zero => simp
  | succ r ih =>
    rw [List.replicate_succ, List.flatten_cons, List.length_append, ih]
    ring

theorem bunching_positions_length (env : Env) (hs : List Nat) :
    (bunching_positions env hs).length = (hs.map (fun h => 160 / h * h)).sum := by
  induction hs with
  | nil => rfl
  | cons h hs ih =>
    have hcons : bunching_positions env (h :: hs) =
        (List.replicate (160 / h) (sweep_positions env h)).flatten ++
          bunching_positions env hs := by
      unfold bunching_positions
      rw [List.flatMap_cons]
    rw [hcons, List.length_append, ih, sweeps_length, List.map_cons, List.sum_cons]
    simp [sweep_positions]

/-- C10, as amended: in the bunching-heads phase the head counts used are 2, 3, 4, 5, 6
ascending followed by 7, 5, 3, 1 descending (the second loop starts from the 7 the first loop
ends with), and for each head count `h` the phase performs `floor(160 / h)` sweeps, each
reading (before jitter) the `h` positions `j / (h + 1)`, `j = 1 .. h`, in order. -/
theorem bunching_heads (env : Env) (hq : ∀ k, env.quit k = false) (fuel : Nat)
    (hfuel : 160 ≤ fuel) (v : Vars) (st : State) (hb : st.block ≠ 0) :
    (∃ w, (buncha_heads env fuel v st).1 = .ok w) ∧
    (buncha_heads env fuel v st).2.trace =
      st.trace ++ jittered env st.draws (bunching_positions env [2, 3, 4, 5, 6, 7, 5, 3, 1]) := by
  obtain ⟨w, hrun⟩ := buncha_heads_run env hq fuel hfuel v
  rw [hrun st hb]
  exact ⟨⟨w, rfl⟩, rfl⟩

theorem bunching_heads_witness :
    (∀ k, (Env.ieee 4096).quit k = false) ∧ 160 ≤ 160 ∧ State.testdrive.block ≠ 0 ∧
    (buncha_heads (Env.ieee 4096) 160 Vars.start State.testdrive).2.trace =
      State.testdrive.trace ++ jittered (Env.ieee 4096) State.testdrive.draws
        (bunching_positions (Env.ieee 4096) [2, 3, 4, 5, 6, 7, 5, 3, 1]) :=
  ⟨fun _ => rfl, le_refl _, by decide,
    (bunching_heads (Env.ieee 4096) (fun _ => rfl) 160 (le_refl _) Vars.start State.testdrive
      (by decide)).2⟩

/-- Counterexample to C10 as stated: with exact arithmetic and no jitter the positions read in
the phase are not those of the head counts 2, 3, 4, 5, 6, 6, 4, 2 (there are 1428 reads, that
sequence has 1271). -/
theorem heads_six_four_two_refuted :
    (buncha_heads (Env.ideal 4096) 160 Vars.start State.testdrive).2.trace ≠
      State.testdrive.trace ++ jittered (Env.ideal 4096) State.testdrive.draws
        (bunching_positions (Env.ideal 4096) [2, 3, 4, 5, 6, 6, 4, 2]) := by
  obtain ⟨w, hrun⟩ := buncha_heads_run (Env.ideal 4096) (fun _ => rfl) 160 (le_refl _)
    Vars.start
  rw [hrun State.testdrive (by decide), after_reads_trace]
  intro h
  have hlen := congrArg List.length h
  simp only [List.length_append, jittered_length, bunching_positions_length] at hlen
  revert hlen
  decide

/-! ## The phase "accelerating zigzag" -/

theorem ceil_inv_bounds (s : ℚ) (hs : 0 < s) :
    1 ≤ ⌈1 / s⌉.toNat ∧ ((⌈1 / s⌉.toNat : ℚ) - 1) * s < 1 ∧ 1 ≤ (⌈1 / s⌉.toNat : ℚ) * s := by
  have hpos : (0 : ℚ) < 1 / s := by positivity
  have hc1 : (1 : ℤ) ≤ ⌈1 / s⌉ := Int.one_le_ceil_iff.mpr hpos
  have hcast : ((⌈1 / s⌉.toNat : ℕ) : ℚ) = (⌈1 / s⌉ : ℚ) := by
    have h : ((⌈1 / s⌉.toNat : ℕ) : ℤ) = ⌈1 / s⌉ := Int.toNat_of_nonneg (by omega)
    exact_mod_cast congrArg (fun z : ℤ => (z : ℚ)) h
  refine ⟨by omega, ?_, ?_⟩
  · rw [hcast]
    have h := Int.ceil_lt_add_one (1 / s)
    have h2 : ((⌈1 / s⌉ : ℚ) - 1) < 1 / s := by linarith
    calc ((⌈1 / s⌉ : ℚ) - 1) * s < 1 / s * s := mul_lt_mul_of_pos_right h2 hs
      _ = 1 := by field_simp
  · rw [hcast]
    have h := Int.le_ceil (1 / s)
    calc (1 : ℚ) = 1 / s * s := by field_simp
      _ ≤ (⌈1 / s⌉ : ℚ) * s := mul_le_mul_of_nonneg_right h hs.le

/-- One pass with step `s`, in exact arithmetic: the ascending and the descending sweep. -/
theorem zigzag_pass_run (env : Env) (hq : ∀ k, env.quit k = false)
    (hex : ∀ x, env.rnd x = x) (s : ℚ) (hs : 0 < s) (fuel : Nat)
    (hfuel : ⌈1 / s⌉.toNat ≤ fuel) (v : Vars) (hv : v.s = s) :
    ∃ w : Vars, (w.s = s + 75 / 10000 ∧ w.i = v.i) ∧ ∀ st : State, st.block ≠ 0 →
      zigzag_pass env fuel v st = (.ok w, after_reads env (zigzag_sweeps s) st) := by
  obtain ⟨hn, hn1, hn2⟩ := ceil_inv_bounds s hs
  unfold zigzag_sweeps
  generalize ⌈1 / s⌉.toNat = n at hn hn1 hn2 hfuel ⊢
  obtain ⟨w1, hw1, hasc⟩ := for_loop_inv env (fun v : Vars => decide (v.f < 1))
    (read_at_f env) (fun v => { v with f := env.rnd (v.f + v.s) })
    (fun k w => w.f = (k : ℚ) * s ∧ w.s = s ∧ w.i = v.i)
    (fun k => [(k : ℚ) * s]) n
    (by
      intro k w hk hI
      obtain ⟨hf, hws, hi⟩ := hI
      refine ⟨?_, w, ⟨?_, hws, hi⟩, ?_⟩
      · rw [decide_eq_true_iff, hf]
        have hk1 : (k : ℚ) ≤ (n : ℚ) - 1 := by
          have h1 : ((k + 1 : Nat) : ℚ) ≤ n := by exact_mod_cast hk
          push_cast at h1
          linarith
        calc (k : ℚ) * s ≤ ((n : ℚ) - 1) * s := mul_le_mul_of_nonneg_right hk1 hs.le
          _ < 1 := hn1
      · simp only [hex, hf, hws]
        push_cast
        ring
      · intro st1 hst1
        rw [read_at_f, bind_run_ok _ _ st1 _ _ (read_jittered_ok env _ st1 (hq _) hst1), hf]
        rfl)
    (by
      intro w hI
      rw [decide_eq_false_iff_not, hI.1]
      exact not_lt.mpr hn2)
    n 0 { v with f := 0 } (by omega) ⟨by simp, hv, rfl⟩
  obtain ⟨hf1, hs1, hi1⟩ := hw1
  have hcast1 : ((n - 1 : Nat) : ℚ) = (n : ℚ) - 1 := by
    rw [Nat.cast_sub hn]
    simp
  obtain ⟨w2, hw2, hdesc⟩ := for_loop_inv env (fun v : Vars => decide (v.f > 0))
    (read_at_f env) (fun v => { v with f := env.rnd (v.f - v.s) })
    (fun k w => w.f = ((n - 1 - k : Nat) : ℚ) * s ∧ w.s = s ∧ w.i = v.i)
    (fun k => [((n - 1 - k : Nat) : ℚ) * s]) (n - 1)
    (by
      intro k w hk hI
      obtain ⟨hf, hws, hi⟩ := hI
      obtain ⟨m, hm⟩ : ∃ m, n - 1 - k = m + 1 := ⟨n - 1 - k - 1, by omega⟩
      have hm1 : n - 1 - (k + 1) = m := by omega
      refine ⟨?_, w, ⟨?_, hws, hi⟩, ?_⟩
      · rw [decide_eq_true_iff, hf, hm]
        have : (0 : ℚ) < ((m + 1 : Nat) : ℚ) := by exact_mod_cast Nat.succ_pos m
        exact mul_pos this hs
      · simp only [hex, hf, hws, hm, hm1]
        push_cast
        ring
      · intro st1 hst1
        rw [read_at_f, bind_run_ok _ _ st1 _ _ (read_jittered_ok env _ st1 (hq _) hst1), hf]
        rfl)
    (by
      intro w hI
      rw [decide_eq_false_iff_not, hI.1, Nat.sub_self]
      simp)
    (n - 1) 0 { w1 with f := env.rnd (w1.f - w1.s) } (by omega)
    ⟨by
      simp only [hex, hf1, hs1, Nat.sub_zero, hcast1]
      ring, hs1, hi1⟩
  refine ⟨{ w2 with s := env.rnd (w2.s + env.rnd (75 / 10000)) },
    ⟨by simp only [hex, hw2.2.1], hw2.2.2⟩, ?_⟩
  intro st hb
  have h1 := hasc fuel st hfuel hb
  have h2 := hdesc fuel (after_reads env ((List.range n).map (fun k : Nat => (k : ℚ) * s)) st)
    (by omega) (by exact hb)
  simp only [Nat.zero_add] at h1 h2
  rw [flatten_map_singleton] at h1 h2
  rw [zigzag_pass, bind_run_ok _ _ st _ _ h1, bind_run_ok _ _ _ _ _ h2, ← after_reads_append]
  rfl

theorem ceil_inv_le_hundred (s : ℚ) (hs : 1 / 100 ≤ s) : ⌈1 / s⌉.toNat ≤ 100 := by
  have hpos : 0 < s := by linarith
  have h1 : 1 / s ≤ ((100 : ℤ) : ℚ) := by
    rw [div_le_iff₀ hpos]
    push_cast
    linarith
  have h2 : ⌈1 / s⌉ ≤ 100 := Int.ceil_le.mpr h1
  omega

/-- The five passes, in exact arithmetic. -/
theorem accelerating_zigzag_run (env : Env) (hq : ∀ k, env.quit k = false)
    (hex : ∀ x, env.rnd x = x) (fuel : Nat) (hfuel : 100 ≤ fuel) (v : Vars) :
    ∃ w : Vars, ∀ st : State, st.block ≠ 0 →
      accelerating_zigzag env fuel v st =
        (.ok w, after_reads env accelerating_zigzag_positions st) := by
  obtain ⟨w, _, hrun⟩ := for_loop_inv env (fun v : Vars => decide (v.i < 5))
    (zigzag_pass env fuel) (fun v => { v with i := v.i + 1 })
    (fun k w => w.i = k ∧ w.s = 1 / 100 + (k : ℚ) * (75 / 10000))
    (fun k => zigzag_sweeps (1 / 100 + (k : ℚ) * (75 / 10000))) 5
    (by
      intro k w hk hI
      obtain ⟨hi, hws⟩ := hI
      have hk0 : (0 : ℚ) ≤ (k : ℚ) := Nat.cast_nonneg k
      have hs100 : (1 : ℚ) / 100 ≤ 1 / 100 + (k : ℚ) * (75 / 10000) := by nlinarith
      obtain ⟨w1, ⟨hs1, hi1⟩, hpass⟩ := zigzag_pass_run env hq hex
        (1 / 100 + (k : ℚ) * (75 / 10000)) (by linarith) fuel
        (le_trans (ceil_inv_le_hundred _ hs100) hfuel) w hws
      refine ⟨?_, w1, ⟨?_, ?_⟩, hpass⟩
      · rw [decide_eq_true_iff, hi]
        exact_mod_cast hk
      · simp only [hi1, hi]
        push_cast
        ring
      · simp only [hs1]
        push_cast
        ring)
    (by
      intro w hI
      rw [decide_eq_false_iff_not, hI.1]
      norm_num)
    5 0 { v with s := env.rnd (10 / 1000), i := 0 } (by omega)
    ⟨by simp, by simp only [hex]; norm_num⟩
  refine ⟨{ w with f := env.rnd (w.f + w.s) }, ?_⟩
  intro st hb
  have h := hrun fuel st (by omega) hb
  have hpos : ((List.range 5).map
      (fun i : Nat => zigzag_sweeps (1 / 100 + ((0 + i : Nat) : ℚ) * (75 / 10000)))).flatten =
      accelerating_zigzag_positions := by
    have hr : List.range 5 = [0, 1, 2, 3, 4] := by decide
    rw [hr, accelerating_zigzag_positions]
    simp only [List.map_cons, List.map_nil, List.flatMap_cons, List.flatMap_nil,
      List.flatten_cons, List.flatten_nil]
    norm_num
  rw [hpos] at h
  rw [accelerating_zigzag, bind_run_ok _ _ st _ _ h]
  rfl

/-- The sweeps for a step `s` with `n` multiples below 1, written out. -/
theorem zigzag_sweeps_eq (s : ℚ) (n : Nat) (hs : 0 < s) (h1 : ((n : ℚ) - 1) * s < 1)
    (h2 : 1 ≤ (n : ℚ) * s) :
    zigzag_sweeps s =
      (List.range n).map (fun k : Nat => (k : ℚ) * s) ++
        (List.range (n - 1)).map (fun k : Nat => ((n - 1 - k : Nat) : ℚ) * s) := by
  have hceil : ⌈1 / s⌉ = (n : ℤ) := by
    rw [Int.ceil_eq_iff]
    constructor
    · rw [lt_div_iff₀ hs]
      push_cast
      exact h1
    · rw [div_le_iff₀ hs]
      push_cast
      exact h2
  unfold zigzag_sweeps
  rw [hceil, Int.toNat_ofNat]

/-- The numbers of reads of the five passes: 100 up and 99 down, 58 and 57, 40 and 39, 31 and
30, 25 and 24. -/
theorem zigzag_sweeps_counts :
    ([10 / 1000, 175 / 10000, 250 / 10000, 325 / 10000, 400 / 10000].map
      (fun s : ℚ => (zigzag_sweeps s).length)) = [199, 115, 79, 61, 49] := by
  simp only [List.map_cons, List.map_nil]
  rw [zigzag_sweeps_eq (10 / 1000) 100 (by norm_num) (by norm_num) (by norm_num),
    zigzag_sweeps_eq (175 / 10000) 58 (by norm_num) (by norm_num) (by norm_num),
    zigzag_sweeps_eq (250 / 10000) 40 (by norm_num) (by norm_num) (by norm_num),
    zigzag_sweeps_eq (325 / 10000) 31 (by norm_num) (by norm_num) (by norm_num),
    zigzag_sweeps_eq (400 / 10000) 25 (by norm_num) (by norm_num) (by norm_num)]
  simp only [List.length_append, List.length_map, List.length_range]

/-- C9: with all jitter zero and exact arithmetic, the accelerating-zigzag phase of
`move_heads` performs exactly 5 passes, pass `k` being one ascending sweep from 0 in steps of
`s_k` over all positions below 1 followed by one descending sweep in steps of `s_k` back down
to above 0, with the step sizes 0.010, 0.0175, 0.0250, 0.0325, 0.0400. -/
theorem accelerating_zigzag_passes (env : Env) (hq : ∀ k, env.quit k = false)
    (hex : ∀ x, env.rnd x = x) (hz : ∀ k, env.random k = 0) (fuel : Nat) (hfuel : 100 ≤ fuel)
    (v : Vars) (st : State) (hb : st.block ≠ 0) :
    (∃ w, (accelerating_zigzag env fuel v st).1 = .ok w) ∧
    (accelerating_zigzag env fuel v st).2.trace =
      st.trace ++ [10 / 1000, 175 / 10000, 250 / 10000, 325 / 10000, 400 / 10000].flatMap
        zigzag_sweeps := by
  obtain ⟨w, hrun⟩ := accelerating_zigzag_run env hq hex fuel hfuel v
  rw [hrun st hb, after_reads_trace, jittered_exact env hex hz]
  exact ⟨⟨w, rfl⟩, rfl⟩

theorem accelerating_zigzag_passes_witness :
    (∀ k, (Env.ideal 4096).quit k = false) ∧ (∀ x, (Env.ideal 4096).rnd x = x) ∧
    (∀ k, (Env.ideal 4096).random k = 0) ∧ 100 ≤ 100 ∧ State.testdrive.block ≠ 0 ∧
    (accelerating_zigzag (Env.ideal 4096) 100 Vars.start State.testdrive).2.trace =
      State.testdrive.trace ++
        [10 / 1000, 175 / 10000, 250 / 10000, 325 / 10000, 400 / 10000].flatMap zigzag_sweeps :=
  ⟨fun _ => rfl, fun _ => rfl, fun _ => rfl, le_refl _, by decide,
    (accelerating_zigzag_passes (Env.ideal 4096) (fun _ => rfl) (fun _ => rfl) (fun _ => rfl)
      100 (le_refl _) Vars.start State.testdrive (by decide)).2⟩

/-! ## Cancellation -/

theorem read_jittered_cancelled (env : Env) (f : ℚ) (st : State)
    (hq : env.quit st.calls = true) :
    read_jittered env f st = (.error .normal_exit, after_cancel env f st) := by
  rw [read_jittered, bind_run_ok (draw env) _ st { st with draws := st.draws + 1 }
    (env.random st.draws) rfl]
  rw [read_position_cancelled env _ _ (by exact hq)]
  rfl

theorem for_loop_error {σ : Type} (cond : σ → Bool) (body : σ → M σ) (incr : σ → σ)
    (fuel : Nat) (v : σ) (st st1 : State) (e : Exc) (hc : cond v = true)
    (hbody : body v st = (.error e, st1)) :
    for_loop cond body incr (fuel + 1) v st = (.error e, st1) := by
  rw [for_loop]
  simp only [hc, if_true]
  rw [bind_run_error _ _ st _ _ hbody]

/-- The first phase when its first read finds the flag set. -/
theorem accelerating_zigzag_cancelled (env : Env) (fuel : Nat) (v : Vars) (st : State)
    (hq : env.quit st.calls = true) :
    accelerating_zigzag env (fuel + 1) v st = (.error .normal_exit, after_cancel env 0 st) := by
  have hbody : read_at_f env { v with s := env.rnd (10 / 1000), i := 0, f := 0 } st =
      (.error .normal_exit, after_cancel env 0 st) := by
    rw [read_at_f]
    exact bind_run_error _ _ _ _ _ (read_jittered_cancelled env 0 st hq)
  have hinner := for_loop_error (fun v : Vars => decide (v.f < 1)) (read_at_f env)
    (fun v => { v with f := env.rnd (v.f + v.s) }) fuel _ _ _ _ (by simp) hbody
  have hpass : zigzag_pass env (fuel + 1) { v with s := env.rnd (10 / 1000), i := 0 } st =
      (.error .normal_exit, after_cancel env 0 st) := by
    rw [zigzag_pass]
    exact bind_run_error _ _ _ _ _ hinner
  have houter := for_loop_error (fun v : Vars => decide (v.i < 5)) (zigzag_pass env (fuel + 1))
    (fun v => { v with i := v.i + 1 }) fuel _ _ _ _ (by simp) hpass
  rw [accelerating_zigzag]
  exact bind_run_error _ _ _ _ _ houter

/-- A pattern run whose first read finds the flag set ends there with `normal_exit`. -/
theorem move_heads_cancelled (env : Env) (fuel r : Nat) (st : State)
    (hr : env.raw_size = some r) (hfuel : 1 ≤ fuel) (hq : env.quit st.calls = true) :
    (move_heads env fuel st).1 = .error .normal_exit ∧
    (move_heads env fuel st).2.reads = st.reads ∧
    (move_heads env fuel st).2.files = st.files ∧
    (move_heads env fuel st).2.calls = st.calls + 1 := by
  obtain ⟨fuel1, rfl⟩ : ∃ fuel1, fuel = fuel1 + 1 := ⟨fuel - 1, by omega⟩
  have hset := set_block_size_ok env BLOCK r st (by norm_num [BLOCK, MiB]) hr
  rw [move_heads, bind_run_ok _ _ st _ _ hset,
    bind_run_error _ _ _ _ _ (accelerating_zigzag_cancelled env fuel1 Vars.start _ (by exact hq))]
  exact ⟨rfl, rfl, rfl, rfl⟩

theorem prepare_output_ok (env : Env) (o : Options) (st : State)
    (hout : ∀ out, o.output = some out →
      env.dir_exists (if out.back ≠ '/' then out.push '/' else out) = true ∨
      env.can_mkdir (if out.back ≠ '/' then out.push '/' else out) = true) :
    ∃ res dirs, prepare_output env o st = (.ok res, { st with dirs := dirs }) := by
  unfold prepare_output
  cases ho : o.output with
  | none => exact ⟨"", st.dirs, rfl⟩
  | some out =>
    simp only
    by_cases hex : env.dir_exists (if out.back ≠ '/' then out.push '/' else out) = true
    · rw [if_pos hex]
      exact ⟨_, st.dirs, rfl⟩
    · rw [if_neg hex]
      have hmk := (hout out ho).resolve_left hex
      rw [if_pos hmk]
      exact ⟨_, _, rfl⟩

theorem hddance_ok (env : Env) (dev res : String) (r : Nat) (st : State)
    (hdev : env.dev_opens dev = true) (hr : env.raw_size = some r) :
    ∃ n, hddance env dev res st =
      (.ok (), { st with name := n, results_dir := res, block := 0, capacity := r }) := by
  unfold hddance get_hdd_name get_capacity
  simp only [hdev, hr, if_true]
  cases env.identity with
  | none => exact ⟨_, rfl⟩
  | some model =>
    simp only
    split_ifs
    · exact ⟨_, rfl⟩
    · exact ⟨_, rfl⟩

/-- The whole program when the first read finds the flag set. -/
theorem main_cancelled (env : Env) (fuel r n : Nat) (o : Options)
    (files : List (String × List String))
    (hv : o.version = false) (hh : o.help = false)
    (hout : ∀ out, o.output = some out →
      env.dir_exists (if out.back ≠ '/' then out.push '/' else out) = true ∨
      env.can_mkdir (if out.back ≠ '/' then out.push '/' else out) = true)
    (hdev : env.dev_opens o.device = true) (hr : env.raw_size = some r) (hfuel : 1 ≤ fuel)
    (hbench : o.moveheads = true ∨
      ((∀ b, o.blocksize = some b → (b * KiB) % SIZE ≤ MiB) ∧
        SAMPLES ≤ (accepted env 0 n).length ∧ n ≤ fuel))
    (hq : env.quit 0 = true) :
    (main env fuel o files).1 = .exit 0 ∧
    (main env fuel o files).2.files = files ∧
    (main env fuel o files).2.reads = [] := by
  obtain ⟨res, dirs, hprep⟩ := prepare_output_ok env o (State.start files) hout
  obtain ⟨name, hctor⟩ := hddance_ok env o.device res r
    { State.start files with dirs := dirs } hdev hr
  have htry : (main_try env fuel o (State.start files)).1 = .error .normal_exit ∧
      (main_try env fuel o (State.start files)).2.files = files ∧
      (main_try env fuel o (State.start files)).2.reads = [] := by
    unfold main_try
    simp only [hv, hh, Bool.false_eq_true, if_false]
    rw [bind_run_ok _ _ _ _ _ hprep, bind_run_ok _ _ _ _ _ hctor]
    by_cases hm : o.moveheads = true
    · simp only [hm, if_true]
      obtain ⟨h1, h2, h3, _⟩ := move_heads_cancelled env fuel r
        { State.start files with
          dirs := dirs, name := name, results_dir := res, block := 0, capacity := r }
        hr hfuel hq
      exact ⟨h1, h3, h2⟩
    · obtain ⟨hblk, hn, hnf⟩ := hbench.resolve_left hm
      simp only [hm, Bool.false_eq_true, if_false]
      cases hb : o.blocksize with
      | some b =>
        simp only
        obtain ⟨h1, h2, h3, _⟩ := benchmark_cancelled env fuel ((b * KiB) % SIZE) r n
          { State.start files with
            dirs := dirs, name := name, results_dir := res, block := 0, capacity := r }
          (hblk b hb) hr hn hnf hq
        exact ⟨h1, h3, h2⟩
      | none =>
        simp only
        obtain ⟨h1, h2, h3, _⟩ := benchmark_cancelled env fuel BLOCK r n
          { State.start files with
            dirs := dirs, name := name, results_dir := res, block := 0, capacity := r }
          (by norm_num [BLOCK, MiB]) hr hn hnf hq
        rw [bind_run]
        generalize hrun : perform_random_read_benchmark env fuel BLOCK
          { State.start files with
            dirs := dirs, name := name, results_dir := res, block := 0, capacity := r } = run
            at h1 h2 h3
        obtain ⟨res1, st1⟩ := run
        simp only at h1 h2 h3
        subst h1
        exact ⟨rfl, h3, h2⟩
  obtain ⟨h1, h2, h3⟩ := htry
  unfold main
  generalize main_try env fuel o (State.start files) = run at h1 h2 h3
  obtain ⟨res1, st1⟩ := run
  simp only at h1 h2 h3
  subst h1
  exact ⟨rfl, h2, h3⟩

/-- C6: if the cancellation flag is set before the first timed read, a random-benchmark run and
a pattern run (whose setup succeeds) terminate with `normal_exit` at that first call of
`read_position`, without any device read and without opening or writing a result file, and
`main` returns exit status 0. -/
theorem cancelled_before_first_read (env : Env) (fuel r n : Nat)
    (hr : env.raw_size = some r) (hfuel : 1 ≤ fuel) :
    (∀ (st : State) (block_size : Nat), block_size ≤ MiB →
      SAMPLES ≤ (accepted env st.draws n).length → n ≤ fuel → env.quit st.calls = true →
      (perform_random_read_benchmark env fuel block_size st).1 = .error .normal_exit ∧
      (perform_random_read_benchmark env fuel block_size st).2.calls = st.calls + 1 ∧
      (perform_random_read_benchmark env fuel block_size st).2.reads = st.reads ∧
      (perform_random_read_benchmark env fuel block_size st).2.files = st.files) ∧
    (∀ st : State, env.quit st.calls = true →
      (move_heads env fuel st).1 = .error .normal_exit ∧
      (move_heads env fuel st).2.calls = st.calls + 1 ∧
      (move_heads env fuel st).2.reads = st.reads ∧
      (move_heads env fuel st).2.files = st.files) ∧
    (∀ (o : Options) (files : List (String × List String)),
      o.version = false → o.help = false →
      (∀ out, o.output = some out →
        env.dir_exists (if out.back ≠ '/' then out.push '/' else out) = true ∨
        env.can_mkdir (if out.back ≠ '/' then out.push '/' else out) = true) →
      env.dev_opens o.device = true →
      (o.moveheads = true ∨
        ((∀ b, o.blocksize = some b → (b * KiB) % SIZE ≤ MiB) ∧
          SAMPLES ≤ (accepted env 0 n).length ∧ n ≤ fuel)) →
      env.quit 0 = true →
      (main env fuel o files).1 = .exit 0 ∧
      (main env fuel o files).2.files = files ∧
      (main env fuel o files).2.reads = []) := by
  refine ⟨?_, ?_, ?_⟩
  · intro st block_size hb hn hnf hq
    obtain ⟨h1, h2, h3, h4⟩ := benchmark_cancelled env fuel block_size r n st hb hr hn hnf hq
    exact ⟨h1, h4, h2, h3⟩
  · intro st hq
    obtain ⟨h1, h2, h3, h4⟩ := move_heads_cancelled env fuel r st hr hfuel hq
    exact ⟨h1, h4, h2, h3⟩
  · intro o files hv hh hout hdev hbench hq
    exact main_cancelled env fuel r n o files hv hh hout hdev hr hfuel hbench hq

theorem interrupted_accepted_length (r d0 : Nat) :
    SAMPLES ≤ (accepted (Env.interrupted r) d0 2048).length := by
  rw [accepted_of_zero (Env.interrupted r) rfl (fun _ => rfl), List.length_replicate]
  decide

theorem cancelled_before_first_read_witness :
    (Env.interrupted 4096).raw_size = some 4096 ∧ 1 ≤ 2048 ∧
    (512 ≤ MiB ∧ SAMPLES ≤ (accepted (Env.interrupted 4096) State.testdrive.draws 2048).length ∧
      (Env.interrupted 4096).quit State.testdrive.calls = true ∧
      (perform_random_read_benchmark (Env.interrupted 4096) 2048 512 State.testdrive).1 =
        .error .normal_exit) ∧
    (move_heads (Env.interrupted 4096) 2048 State.testdrive).1 = .error .normal_exit ∧
    (Options.plain.version = false ∧ Options.plain.help = false ∧
      (Env.interrupted 4096).dev_opens Options.plain.device = true ∧
      (Env.interrupted 4096).quit 0 = true ∧
      (main (Env.interrupted 4096) 2048 Options.plain []).1 = .exit 0) :=
  ⟨rfl, by decide,
    ⟨by norm_num [MiB], interrupted_accepted_length 4096 _, rfl,
      ((cancelled_before_first_read (Env.interrupted 4096) 2048 4096 2048 rfl (by decide)).1
        State.testdrive 512 (by norm_num [MiB]) (interrupted_accepted_length 4096 _)
        (le_refl _) rfl).1⟩,
    ((cancelled_before_first_read (Env.interrupted 4096) 2048 4096 2048 rfl (by decide)).2.1
      State.testdrive rfl).1,
    ⟨rfl, rfl, rfl, rfl,
      ((cancelled_before_first_read (Env.interrupted 4096) 2048 4096 2048 rfl (by decide)).2.2
        Options.plain [] rfl rfl (fun out h => by simp [Options.plain] at h) rfl
        (Or.inr ⟨fun b h => by simp [Options.plain] at h, interrupted_accepted_length 4096 0,
          le_refl _⟩) rfl).1⟩⟩

/-! ## Reads stay inside devices whose capacity is an exact double -/

end Hddance
